import Mathlib

/-!
Verification of the Subnetio address-planning core (src/cmd/subnetio) against
its specification.  The Go sources are shallowly embedded: machine integers
become `Nat`/`Int` with explicit `% 2^32` where the Go code really wraps,
`math/big.Int` becomes `Int`, `sql.NullInt64`/`sql.NullString` become `Option`,
and a CIDR string is modelled at parse granularity by `CidrVal` (either the
prefix that `netip.ParsePrefix` yields, or the raw text it rejects).
Iteration over Go maps has no specified order; wherever the source iterates a
map and the order is visible in the output, the embedding takes the order as
an explicit parameter and "Go-admissible" orders are the permutations of the
map's key set.
-/

namespace Subnetio

/-- uint32 modulus. -/
def M32 : Nat := 4294967296

/-! ## analysis.go: status levels and conflicts -/

/-- statusLevel (analysis.go): OK < Warning < Conflict. -/
inductive statusLevel
  | ok
  | warning
  | conflict
deriving DecidableEq

def statusLevel.toNat : statusLevel → Nat
  | .ok => 0
  | .warning => 1
  | .conflict => 2

/-- statusLevel.Label (analysis.go). -/
def statusLevel.Label : statusLevel → String
  | .warning => "Warning"
  | .conflict => "Conflict"
  | .ok => "OK"

/-- addStatus's "if level > st.Level { st.Level = level }". -/
def maxLevel (a b : statusLevel) : statusLevel :=
  if a.toNat < b.toNat then b else a

/-- Conflict (vlsm.go). -/
structure Conflict where
  Kind : String
  Detail : String
  Level : String
deriving DecidableEq

/-- ProjectRules (rules file). -/
structure ProjectRules where
  VLANScope : String
  RequireInPool : Bool
  AllowReservedOverlap : Bool
  OversizeThreshold : Int
  PoolStrategy : String
  PoolTierFallback : Bool
deriving DecidableEq

/-- defaultProjectRules. -/
def defaultProjectRules : ProjectRules :=
  ⟨"site_vrf", true, false, 50, "spillover", true⟩

/-! ## Prefix arithmetic (ipmath.go, net/netip semantics)

A `netip.Prefix` is (address width, address value, prefix length): `w` is 32
for a 4-byte address and 128 for a 16-byte one, `addr` the integer value of
the address bytes (ipv4ToU32 / addrToBig), `bits` the prefix length.  The
address is stored unmasked, exactly as netip does. -/

structure Prfx where
  w : Nat
  addr : Nat
  bits : Nat
deriving DecidableEq

/-- prefixSize (ipmath.go): 2^(w-bits); the Go guard "sizeBits <= 0 → 1"
coincides with truncated Nat subtraction. -/
def Prfx.size (p : Prfx) : Nat := 2 ^ (p.w - p.bits)

/-- The address with host bits zeroed (netip.Prefix.Masked's address). -/
def Prfx.maskedAddr (p : Prfx) : Nat := p.addr / p.size * p.size

/-- netip.Prefix.Masked. -/
def Prfx.masked (p : Prfx) : Prfx := ⟨p.w, p.maskedAddr, p.bits⟩

/-- netip.Prefix.Contains: false across families, else compares the top
`bits` bits of the argument address with the prefix's. -/
def Prfx.containsA (p : Prfx) (aw a : Nat) : Bool :=
  p.w == aw && (a / p.size == p.addr / p.size)

/-- prefixesOverlap (vlsm.go). -/
def prefixesOverlap (a b : Prfx) : Bool :=
  a.containsA b.w b.addr || b.containsA a.w a.addr

/-- overlapsAny (vlsm.go). -/
def overlapsAny (p : Prfx) (used : List Prfx) : Bool :=
  used.any fun u => prefixesOverlap u p

/-- prefixSize as a big integer (addrToBig arithmetic). -/
def prefixSizeZ (p : Prfx) : Int := (p.size : Int)

/-- addrBitLen (ipmath.go): 32 for a 4-byte address, else 128. -/
def addrBitLen (w : Nat) : Nat := if w == 32 then 32 else 128

/-- bigToAddr's success condition: nonnegative and within the address width
(ipmath.go checks BitLen > 32 for width 32, else BitLen > 128). -/
def bigToAddrOK (i : Int) (bits : Nat) : Bool :=
  if bits == 32 then decide (0 ≤ i) && decide (i < (2:Int) ^ (32:Nat))
  else decide (0 ≤ i) && decide (i < (2:Int) ^ (128:Nat))

/-- prefixLastAddr's big-integer value (ipmath.go): masked start + size - 1. -/
def prefixLastAddr (p : Prfx) : Int := (p.maskedAddr : Int) + prefixSizeZ p - 1

/-- prefixWithin (ipmath.go): the pool contains the inner prefix's (unmasked)
address and its last address. -/
def prefixWithin (pool p : Prfx) : Bool :=
  pool.containsA p.w p.addr &&
    (bigToAddrOK (prefixLastAddr p) (addrBitLen p.w) &&
      pool.containsA (addrBitLen p.w) (prefixLastAddr p).toNat)

/-! ## Textual rendering (vlsm.go itoa, netip String) -/

/-- itoa / itoa64 (vlsm.go): decimal rendering. -/
def itoa (i : Int) : String := toString i

/-- Dotted-quad rendering of a 32-bit address value (netip.Addr.String for
IPv4). -/
def u32ToIPv4String (v : Nat) : String :=
  toString (v / 16777216 % 256) ++ "." ++ toString (v / 65536 % 256) ++ "." ++
    toString (v / 256 % 256) ++ "." ++ toString (v % 256)

def hexStr (n : Nat) : String := String.mk (Nat.toDigits 16 n)

/-- Rendering of a 128-bit address value.  netip applies RFC 5952 zero
compression; the embedding prints all eight lowercase-hex groups instead
(injective, and no claim below inspects an IPv6 rendering). -/
def v6AddrString (v : Nat) : String :=
  String.intercalate ":" ((List.range 8).map fun i => hexStr (v / 2 ^ (16 * (7 - i)) % 65536))

/-- netip.Prefix.String: address text, "/", decimal length. -/
def Prfx.string (p : Prfx) : String :=
  (if p.w == 32 then u32ToIPv4String p.addr else v6AddrString p.addr) ++ "/" ++ itoa (p.bits : Int)

/-! ## Data model (main.go)

Only the fields the embedded functions read are kept.  A nullable CIDR
column is `Option CidrVal`: `parsed p` stands for any string that
netip.ParsePrefix accepts and that denotes `p` (write-backs store the
canonical rendering, which parses back to the same `p`), `malformed raw`
for a string it rejects.  Go's surrounding string trimming of
comma-separated tokens is absorbed into the token representation. -/

inductive CidrVal
  | parsed (p : Prfx)
  | malformed (raw : String)
deriving DecidableEq

/-- Segment (main.go); `PrefixLen`/`PrefixLenV6` are the Go fields
`Prefix`/`PrefixV6` (requested lengths). -/
structure Segment where
  ID : Int
  SiteID : Int
  Site : String
  VRF : String
  VLAN : Int
  Name : String
  Hosts : Option Int
  PrefixLen : Option Int
  CIDR : Option CidrVal
  PrefixLenV6 : Option Int
  CIDRV6 : Option CidrVal
  Locked : Bool
  Tags : Option String
  PoolTier : Option String
deriving DecidableEq

/-- Pool (main.go). -/
structure Pool where
  ID : Int
  SiteID : Int
  Site : String
  CIDR : CidrVal
  Family : String
  Tier : Option String
  Priority : Int
deriving DecidableEq

/-- Site (main.go); ReservedRanges is the comma-separated list, modelled as
its (trimmed, nonempty) tokens. -/
structure Site where
  ID : Int
  Name : String
  ReservedRanges : Option (List CidrVal)
deriving DecidableEq

/-! ## Association-list helpers for Go maps (content-faithful; Go map
iteration order, where visible, is an explicit parameter elsewhere). -/

def aInsert {κ α : Type} [BEq κ] (m : List (κ × α)) (k : κ) (v : α) : List (κ × α) :=
  if m.any (fun kv => kv.1 == k) then m.map fun kv => if kv.1 == k then (k, v) else kv
  else m ++ [(k, v)]

def aFind {κ α : Type} [BEq κ] (m : List (κ × α)) (k : κ) : Option α :=
  (m.find? fun kv => kv.1 == k).map (·.2)

/-! ## vlsm.go -/

/-- hostsToPrefixIPv4's descending scan: fuel is the current candidate
length p, counting 32 down to 1; at fuel 0 the Go loop has ended and
returns 1. -/
def hostsToPrefixAux (need : Int) : Nat → Int
  | 0 => 1
  | p + 1 => if need ≤ (2:Int) ^ (32 - (p + 1)) then ((p : Int) + 1) else hostsToPrefixAux need p

/-- hostsToPrefixIPv4 (vlsm.go): smallest block holding hosts+3 addresses. -/
def hostsToPrefixIPv4 (hosts : Int) : Int := hostsToPrefixAux (hosts + 3) 32

/-- desiredPrefix (vlsm.go). -/
def desiredPrefix (s : Segment) : Int :=
  match s.PrefixLen with
  | some v => v
  | none =>
    match s.Hosts with
    | some h => hostsToPrefixIPv4 h
    | none => 0

/-- The cursor sweep of allocateInPoolIPv4 (vlsm.go).  Go's `cur`, `step`,
`end` are uint32, so additions wrap modulo 2^32; the fuel exceeds the
cursor's cycle length, so every terminating Go sweep is reproduced (the Go
loop can fail to terminate on one degenerate input shape; there the model
returns none). -/
def allocLoop4 (pool : Prfx) (wantN step endv : Nat) (used : List Prfx) : Nat → Nat → Option Prfx
  | 0, _ => none
  | fuel + 1, cur =>
    if (cur + step) % M32 > endv then none
    else
      let cand := Prfx.masked ⟨32, cur, wantN⟩
      if pool.containsA 32 cand.addr && !(overlapsAny cand used) then some cand
      else allocLoop4 pool wantN step endv used fuel ((cur + step) % M32)

/-- allocateInPoolIPv4 (vlsm.go). -/
def allocateInPoolIPv4 (pool : Prfx) (want : Int) (used : List Prfx) : Option Prfx :=
  if want < 1 || 32 < want then none
  else
    let wantN := want.toNat
    let step := 2 ^ (32 - wantN)
    let start := (Prfx.masked pool).addr
    let endv := (start + 2 ^ (32 - pool.bits) % M32) % M32
    allocLoop4 pool wantN step endv used (M32 + 1) start

/-! ## allocator.go

The Go string helpers strings.ToLower / TrimSpace / HasPrefix / Split are
modelled over the character list (ASCII case folding and ASCII whitespace;
the library's String.toLower and trim do not reduce in the kernel, and no
claim exercises non-ASCII family or tier names). -/

def lowerChar (c : Char) : Char :=
  if 'A' ≤ c && c ≤ 'Z' then Char.ofNat (c.toNat + 32) else c

def strToLower (s : String) : String := String.mk (s.data.map lowerChar)

def isSpaceChar (c : Char) : Bool := c == ' ' || c == '\t' || c == '\n' || c == '\r'

def strTrim (s : String) : String :=
  String.mk (((s.data.dropWhile isSpaceChar).reverse.dropWhile isSpaceChar).reverse)

def strStartsWith (s pre : String) : Bool := pre.data.isPrefixOf s.data

def strDrop (s : String) (n : Nat) : String := String.mk (s.data.drop n)

def splitCommaAux : List Char → List Char → List String
  | [], acc => [String.mk acc.reverse]
  | c :: rest, acc =>
    if c == ',' then String.mk acc.reverse :: splitCommaAux rest []
    else splitCommaAux rest (c :: acc)

/-- strings.Split(s, ","). -/
def splitComma (s : String) : List String := splitCommaAux s.data []

def normalizePoolFamily (raw : String) : String :=
  let r := strToLower (strTrim raw)
  if r == "ipv6" then "ipv6" else "ipv4"

def poolTierValue (p : Pool) : String :=
  match p.Tier with
  | some t => strToLower (strTrim t)
  | none => ""

def tierOfPart (part : String) : Option String :=
  if strStartsWith (strToLower part) "tier:" then some (strTrim (strDrop (strToLower part) 5))
  else if strStartsWith (strToLower part) "tier=" then some (strTrim (strDrop (strToLower part) 5))
  else none

def segmentTierLoop : List String → String
  | [] => ""
  | part :: rest =>
    let part := strTrim part
    if part == "" then segmentTierLoop rest
    else
      match tierOfPart part with
      | some t => t
      | none => segmentTierLoop rest

def segTagsTier (s : Segment) : String :=
  match s.Tags with
  | none => ""
  | some tags => segmentTierLoop (splitComma tags)

/-- segmentTierValue (allocator.go). -/
def segmentTierValue (s : Segment) : String :=
  match s.PoolTier with
  | some pt =>
    if strTrim pt ≠ "" then strToLower (strTrim pt) else segTagsTier s
  | none => segTagsTier s

/-- poolItem (allocator.go); `pfx` is the Go field `Prefix`. -/
structure poolItem where
  pool : Pool
  pfx : Prfx
  tier : String
deriving DecidableEq

/-- The comparator of poolItemsForFamily's sort.SliceStable. -/
def poolItemLess (a b : poolItem) : Bool :=
  if a.pool.Priority ≠ b.pool.Priority then decide (a.pool.Priority < b.pool.Priority)
  else if a.tier ≠ b.tier then decide (a.tier < b.tier)
  else decide (a.pfx.string < b.pfx.string)

/-- poolItemsForFamily (allocator.go); sort.SliceStable is modelled by the
stable insertion sort under the complemented comparator (the two agree: a
stable sort of a list under a total preorder is unique). -/
def poolItemsForFamily (pools : List Pool) (family : String) : List poolItem :=
  let items := pools.filterMap fun p =>
    if normalizePoolFamily p.Family ≠ family then none
    else
      match p.CIDR with
      | .malformed _ => none
      | .parsed q =>
        if family == "ipv4" && !(q.w == 32) then none
        else if family == "ipv6" && !(q.w == 128) then none
        else some ⟨p, q, poolTierValue p⟩
  List.insertionSort (fun a b => poolItemLess b a = false) items

/-- bigRange (allocator.go); `endv` is the Go field `end`. -/
structure bigRange where
  start : Int
  endv : Int
deriving DecidableEq

/-- alignUp (ipmath.go); big.Int QuoRem is truncated division. -/
def alignUp (n step : Int) : Int :=
  if step = 0 then n
  else
    let q := n.tdiv step
    let r := n.tmod step
    (if r ≠ 0 then q + 1 else q) * step

def mergeLoopBig (last : bigRange) : List bigRange → List bigRange
  | [] => [last]
  | r :: rs =>
    if r.start ≤ last.endv + 1 then
      mergeLoopBig ⟨last.start, if last.endv < r.endv then r.endv else last.endv⟩ rs
    else last :: mergeLoopBig r rs

/-- mergeBigRanges (allocator.go); expects its input sorted by start. -/
def mergeBigRanges : List bigRange → List bigRange
  | [] => []
  | r :: rs => mergeLoopBig r rs

/-- buildUsedRangesBig (allocator.go): clip each used block to the pool,
sort by start (sort.Slice promises some permutation sorted under the
comparator; the model's insertion sort yields one), merge. -/
def buildUsedRangesBig (pool : Prfx) (used : List Prfx) : List bigRange :=
  if used.isEmpty then []
  else
    let poolStart : Int := (pool.addr : Int)
    let poolEnd := poolStart + prefixSizeZ pool - 1
    let out := used.filterMap fun q =>
      let qm := q.masked
      let start : Int := (qm.addr : Int)
      let e := start + prefixSizeZ qm - 1
      if e < poolStart || poolEnd < start then none
      else some ⟨max start poolStart, min e poolEnd⟩
    mergeBigRanges (List.insertionSort (fun a b => a.start ≤ b.start) out)

def mkV6 (cur : Int) (want : Nat) : Option Prfx :=
  if cur < 0 || (2:Int) ^ (128:Nat) ≤ cur then none
  else some (Prfx.masked ⟨128, cur.toNat, want⟩)

/-- The cursor sweep of allocateInPoolIPv6 (allocator.go); `idx` advancing
over usedRanges becomes dropping the consumed head ranges.  Each
non-returning iteration jumps the cursor past the head range, so the fuel
`|ranges| + 2` covers every Go iteration. -/
def allocLoop6 (want : Nat) (step poolEnd : Int) : Nat → Int → List bigRange → Option Prfx
  | 0, _, _ => none
  | fuel + 1, cur, ranges =>
    if poolEnd < cur + step - 1 then none
    else
      let ranges := ranges.dropWhile fun r => r.endv < cur
      match ranges with
      | [] => mkV6 cur want
      | r :: _ =>
        if cur + step - 1 < r.start then mkV6 cur want
        else allocLoop6 want step poolEnd fuel (alignUp (r.endv + 1) step) ranges

/-- allocateInPoolIPv6 (allocator.go).  A want above 128 makes Go shift by
uint(128-want), an astronomically large amount (no allocation can result);
it is modelled as failure. -/
def allocateInPoolIPv6 (pool : Prfx) (want : Int) (used : List Prfx) : Option Prfx :=
  if !(pool.w == 128) then none
  else
    let pm := pool.masked
    if want < (pm.bits : Int) then none
    else if (128 : Int) < want then none
    else
      let wantN := want.toNat
      let step : Int := (2:Int) ^ (128 - wantN)
      let poolStart : Int := (pm.addr : Int)
      let poolEnd := poolStart + prefixSizeZ pm - 1
      let usedRanges := buildUsedRangesBig pm used
      allocLoop6 wantN step poolEnd (usedRanges.length + 2) (alignUp poolStart step) usedRanges

/-- allocateInPool (allocator.go). -/
def allocateInPool (pool : Prfx) (want : Int) (used : List Prfx) : Option Prfx :=
  if pool.w == 32 then allocateInPoolIPv4 pool want used
  else allocateInPoolIPv6 pool want used

/-- poolTierMatches (allocator.go). -/
def poolTierMatches (pool : poolItem) (tier : String) (fallback : Bool) : Bool :=
  if tier ≠ "" then
    if pool.tier == tier then true else fallback
  else if pool.tier == "" then true
  else fallback

/-- filterPoolsByTier (allocator.go). -/
def filterPoolsByTier (items : List poolItem) (tier : String) (fallback : Bool) : List poolItem :=
  if tier == "" then
    let empty := items.filter fun p => p.tier == ""
    if !empty.isEmpty then empty
    else if fallback then items
    else []
  else
    let out := items.filter fun p => p.tier == tier
    if out.isEmpty && fallback then items else out

/-- desiredPrefixByFamily (allocator.go). -/
def desiredPrefixByFamily (s : Segment) (family : String) : Int :=
  if family == "ipv6" then
    match s.PrefixLenV6 with
    | some v => v
    | none => 0
  else desiredPrefix s

/-- segmentCIDRByFamily (allocator.go). -/
def segmentCIDRByFamily (s : Segment) (family : String) : Option CidrVal :=
  if family == "ipv6" then s.CIDRV6 else s.CIDR

/-- The ALLOCATE_FAIL conflict literal of allocateSpillover and
allocateContiguous. -/
def allocFailConflict (s : Segment) (family : String) : Conflict :=
  ⟨"ALLOCATE_FAIL", "segment " ++ s.Name ++ " could not be allocated (" ++ family ++ ")",
    statusLevel.warning.Label⟩

/-- The inner "scan pools in catalog order, first fit wins" loop. -/
def findPoolAlloc (want : Int) (used : List Prfx) : List poolItem → Option Prfx
  | [] => none
  | pool :: rest =>
    match allocateInPool pool.pfx want used with
    | some p => some p
    | none => findPoolAlloc want used rest

/-- The segment loop of allocateSpillover (allocator.go). -/
def spillGo (items : List poolItem) (rules : ProjectRules) (family : String) (strict : Bool) :
    List Segment → List Prfx → List (Int × Prfx) → List (Int × Prfx) × List Conflict
  | [], _, alloc => (alloc, [])
  | s :: rest, used, alloc =>
    let want := desiredPrefixByFamily s family
    if want == 0 then spillGo items rules family strict rest used alloc
    else
      let poolList :=
        if rules.PoolStrategy == "tiered" then
          filterPoolsByTier items (segmentTierValue s) rules.PoolTierFallback
        else items
      match findPoolAlloc want used poolList with
      | some p => spillGo items rules family strict rest (used ++ [p]) (aInsert alloc s.ID p)
      | none =>
        if strict then (alloc, [allocFailConflict s family])
        else
          let res := spillGo items rules family strict rest used alloc
          (res.1, allocFailConflict s family :: res.2)

/-- allocateSpillover (allocator.go). -/
def allocateSpillover (items : List poolItem) (segments : List Segment) (used : List Prfx)
    (rules : ProjectRules) (family : String) (strict : Bool) :
    List (Int × Prfx) × List Conflict :=
  spillGo items rules family strict segments used []

/-- One pool's greedy pass over pending segments (allocateContiguous's inner
loop): returns (nextPending, used, alloc). -/
def contigPool (pool : poolItem) (rules : ProjectRules) (family : String) :
    List Segment → List Prfx → List (Int × Prfx) →
    List Segment × List Prfx × List (Int × Prfx)
  | [], used, alloc => ([], used, alloc)
  | s :: rest, used, alloc =>
    let want := desiredPrefixByFamily s family
    if want == 0 then contigPool pool rules family rest used alloc
    else if rules.PoolStrategy == "tiered" &&
        !(poolTierMatches pool (segmentTierValue s) rules.PoolTierFallback) then
      let res := contigPool pool rules family rest used alloc
      (s :: res.1, res.2.1, res.2.2)
    else
      match allocateInPool pool.pfx want used with
      | some p => contigPool pool rules family rest (used ++ [p]) (aInsert alloc s.ID p)
      | none =>
        let res := contigPool pool rules family rest used alloc
        (s :: res.1, res.2.1, res.2.2)

/-- The pool loop of allocateContiguous. -/
def contigGo (rules : ProjectRules) (family : String) :
    List poolItem → List Segment → List Prfx → List (Int × Prfx) →
    List Segment × List (Int × Prfx)
  | [], pending, _, alloc => (pending, alloc)
  | pool :: pools, pending, used, alloc =>
    if pending.isEmpty then (pending, alloc)
    else
      let res := contigPool pool rules family pending used alloc
      contigGo rules family pools res.1 res.2.1 res.2.2

/-- The trailing unplaceable-segment loop of allocateContiguous (the strict
break keeps only the first conflict). -/
def contigFails (family : String) (strict : Bool) : List Segment → List Conflict
  | [] => []
  | s :: rest =>
    if strict then [allocFailConflict s family]
    else allocFailConflict s family :: contigFails family strict rest

/-- allocateContiguous (allocator.go). -/
def allocateContiguous (items : List poolItem) (segments : List Segment) (used : List Prfx)
    (rules : ProjectRules) (family : String) (strict : Bool) :
    List (Int × Prfx) × List Conflict :=
  let res := contigGo rules family items segments used []
  (res.2, contigFails family strict res.1)

/-! ## IPv4 used/free ranges (analysis.go) -/

/-- ipv4Range (analysis.go); `endv` is the Go field `end`; both uint32. -/
structure ipv4Range where
  start : Nat
  endv : Nat
deriving DecidableEq

/-- prefixRangeWithin (analysis.go).  For netip-valid v4 prefixes none of the
Go uint32 additions here can wrap (a masked start plus size - 1 stays below
2^32), so plain Nat arithmetic is exact. -/
def prefixRangeWithin (pool p : Prfx) : Option ipv4Range :=
  let poolStart := pool.maskedAddr
  let poolEnd := poolStart + (2 ^ (32 - pool.bits) - 1)
  let pStart := p.maskedAddr
  let pEnd := pStart + (2 ^ (32 - p.bits) - 1)
  if pEnd < poolStart || poolEnd < pStart then none
  else some ⟨max pStart poolStart, min pEnd poolEnd⟩

def mergeLoop4 (last : ipv4Range) : List ipv4Range → List ipv4Range
  | [] => [last]
  | r :: rs =>
    if r.start ≤ last.endv + 1 then
      mergeLoop4 ⟨last.start, if last.endv < r.endv then r.endv else last.endv⟩ rs
    else last :: mergeLoop4 r rs

/-- mergeRanges (analysis.go); expects its input sorted. -/
def mergeRanges : List ipv4Range → List ipv4Range
  | [] => []
  | r :: rs => mergeLoop4 r rs

/-- The comparator of buildUsedRanges's sort.Slice: by start, then end. -/
def ipv4RangeLess (a b : ipv4Range) : Bool :=
  if a.start == b.start then decide (a.endv < b.endv) else decide (a.start < b.start)

/-- buildUsedRanges (analysis.go). -/
def buildUsedRanges (pool : Prfx) (segs : List Segment) (reserved : List Prfx) :
    List ipv4Range :=
  let segRanges := segs.filterMap fun s =>
    match s.CIDR with
    | some (.parsed p) => if p.w == 32 then prefixRangeWithin pool p else none
    | _ => none
  let resRanges := reserved.filterMap fun r =>
    if r.w == 32 then prefixRangeWithin pool r else none
  mergeRanges (List.insertionSort (fun a b => ipv4RangeLess b a = false) (segRanges ++ resRanges))

/-- The cursor loop of freeRanges (analysis.go).  `r.end+1` is a uint32
addition in Go, hence the `% 2^32`: for a used range ending at the top
address it wraps to 0 and the cursor does not advance. -/
def freeLoop4 (poolEnd : Nat) : Nat → List ipv4Range → List ipv4Range
  | cur, [] => if cur ≤ poolEnd then [⟨cur, poolEnd⟩] else []
  | cur, r :: rs =>
    let gaps := if cur < r.start then [⟨cur, r.start - 1⟩] else []
    let next := (r.endv + 1) % M32
    let cur' := if cur < next then next else cur
    if poolEnd < cur' then gaps
    else gaps ++ freeLoop4 poolEnd cur' rs

/-- freeRanges (analysis.go). -/
def freeRanges (pool : Prfx) (used : List ipv4Range) : List ipv4Range :=
  let poolStart := pool.maskedAddr
  let poolEnd := poolStart + (2 ^ (32 - pool.bits) - 1)
  if used.isEmpty then [⟨poolStart, poolEnd⟩]
  else freeLoop4 poolEnd poolStart used

/-- bits.TrailingZeros32, by repeated halving (32 for 0). -/
def tzAux : Nat → Nat → Nat
  | 0, _ => 0
  | f + 1, n => if n % 2 == 1 then 0 else 1 + tzAux f (n / 2)

def tz32 (n : Nat) : Nat := tzAux 32 n

/-- The inner maxPref adjustment of rangeToPrefixes: grow the length until
the block fits in the remaining addresses. -/
def bumpPref (remaining : Nat) : Nat → Nat → Nat
  | 0, mp => mp
  | f + 1, mp =>
    if mp < 32 then
      if 2 ^ (32 - mp) ≤ remaining then mp else bumpPref remaining f (mp + 1)
    else mp

/-- The block loop of rangeToPrefixes (analysis.go).  The cursor advance is a
uint32 addition (it may wrap to 0 at the top of the space).  A sweep emits
at most ~64 blocks and the cursor can wrap at most once, so fuel 256 covers
every Go iteration. -/
def rangeToPrefixesLoop : Nat → Nat → Nat → List Prfx
  | 0, _, _ => []
  | fuel + 1, start, endv =>
    if endv < start then []
    else
      let mp := bumpPref (endv - start + 1) 33 (32 - tz32 start)
      let p := Prfx.masked ⟨32, start, mp⟩
      if mp == 0 then [p]
      else p :: rangeToPrefixesLoop fuel ((start + 2 ^ (32 - mp)) % M32) endv

/-- rangeToPrefixes (analysis.go): aligned CIDR decomposition of a range. -/
def rangeToPrefixes (r : ipv4Range) : List Prfx :=
  rangeToPrefixesLoop 256 r.start r.endv

/-- fragmentationScore (analysis.go); uint64 arithmetic (callers always pass
largest ≤ total, where truncated Nat subtraction agrees with uint64). -/
def fragmentationScore (total largest : Nat) : Int :=
  if total == 0 then 0
  else
    let frag : Int := (((total - largest) * 100 / total : Nat) : Int)
    if frag < 0 then 0 else if 100 < frag then 100 else frag

/-- fragmentationScoreBig (analysis.go).  Go routes the exact ratio through
float64 and truncates int(f*100); the model computes the exact truncation
(the two differ only by float rounding; no claim depends on it). -/
def fragmentationScoreBig (total largest : Int) : Int :=
  if total == 0 then 0
  else
    let remaining := total - largest
    if remaining < 0 then 0
    else
      let frag := (remaining * 100).tdiv total
      if frag < 0 then 0 else if 100 < frag then 100 else frag

/-- percentBig (analysis.go); same float64 note as fragmentationScoreBig. -/
def percentBig (num denom : Int) : Int :=
  if denom == 0 then 0
  else
    let pct := (num * 100).tdiv denom
    if pct < 0 then 0 else if 100 < pct then 100 else pct

/-- bigRangeSize (analysis.go). -/
def bigRangeSize (r : bigRange) : Int := r.endv - r.start + 1

/-- The cursor loop of freeRangesBig (analysis.go); big.Int, no wrap. -/
def freeLoopBig (poolEnd : Int) : Int → List bigRange → List bigRange
  | cur, [] => if cur ≤ poolEnd then [⟨cur, poolEnd⟩] else []
  | cur, r :: rs =>
    let gaps := if cur < r.start then [⟨cur, r.start - 1⟩] else []
    let cur' := if cur < r.endv + 1 then r.endv + 1 else cur
    if poolEnd < cur' then gaps
    else gaps ++ freeLoopBig poolEnd cur' rs

/-- freeRangesBig (analysis.go). -/
def freeRangesBig (pool : Prfx) (used : List bigRange) : List bigRange :=
  let pm := pool.masked
  let poolStart : Int := (pm.addr : Int)
  let poolEnd := poolStart + prefixSizeZ pm - 1
  if used.isEmpty then [⟨poolStart, poolEnd⟩]
  else freeLoopBig poolEnd poolStart used

/-- The block loop of bigRangeToPrefixes (analysis.go); recursion on the
remaining limit, which bounds the Go loop exactly. -/
def bigRangeToPrefixesLoop (step endv : Int) (unitP : Nat) : Nat → Int → List Prfx
  | 0, _ => []
  | limit + 1, start =>
    if endv < start + step - 1 then []
    else if start < 0 || (2:Int) ^ (128:Nat) ≤ start then []
    else Prfx.masked ⟨128, start.toNat, unitP⟩ ::
      bigRangeToPrefixesLoop step endv unitP limit (start + step)

/-- bigRangeToPrefixes (analysis.go). -/
def bigRangeToPrefixes (r : bigRange) (unitP limit : Int) : List Prfx :=
  if unitP ≤ 0 || 128 < unitP || limit ≤ 0 then []
  else
    let step : Int := (2:Int) ^ (128 - unitP.toNat)
    bigRangeToPrefixesLoop step r.endv unitP.toNat limit.toNat (alignUp r.start step)

/-- collectUsedPrefixesV6 (capacity file). -/
def collectUsedPrefixesV6 (segs : List Segment) (reserved : List Prfx) : List Prfx :=
  (segs.filterMap fun s =>
    match s.CIDRV6 with
    | some (.parsed p) => if p.w == 128 then some p else none
    | _ => none) ++
  reserved.filter fun r => r.w == 128

/-- sumIPv4Ranges (capacity file); accumulated into a big integer. -/
def sumIPv4Ranges (ranges : List ipv4Range) : Int :=
  ranges.foldl (fun acc r => acc + ((r.endv - r.start + 1 : Nat) : Int)) 0

/-- sumBigRanges (capacity file). -/
def sumBigRanges (ranges : List bigRange) : Int :=
  ranges.foldl (fun acc r => acc + (r.endv - r.start + 1)) 0

/-! ## Planning allocator (allocator.go) and applyPlan (what-if file) -/

/-- segmentsNeedFamily (allocator.go). -/
def segmentsNeedFamily (segs : List Segment) (family : String) : Bool :=
  segs.any fun s =>
    if family == "ipv6" then s.PrefixLenV6.isSome || s.CIDRV6.isSome
    else s.PrefixLen.isSome || s.Hosts.isSome || s.CIDR.isSome

def lockedNoCidrConflict (s : Segment) (family : String) : Conflict :=
  ⟨"LOCKED_NO_CIDR", "segment " ++ s.Name ++ " is locked without CIDR (" ++ family ++ ")",
    statusLevel.warning.Label⟩

def sizeMissingConflict (s : Segment) (family : String) : Conflict :=
  ⟨"SIZE_MISSING", "segment " ++ s.Name ++ " has no size request (" ++ family ++ ")",
    statusLevel.warning.Label⟩

/-- One segment of planAllocateFamily's locked loop; the state is
(used, plan, conflicts). -/
def planLockedStep (family : String)
    (acc : List Prfx × List (Int × Prfx) × List Conflict) (s : Segment) :
    List Prfx × List (Int × Prfx) × List Conflict :=
  if !s.Locked then acc
  else
    match segmentCIDRByFamily s family with
    | none => (acc.1, acc.2.1, acc.2.2 ++ [lockedNoCidrConflict s family])
    | some (.malformed _) => acc
    | some (.parsed p) => (acc.1 ++ [p], aInsert acc.2.1 s.ID p, acc.2.2)

/-- planAllocateFamily's locked-segment loop: (used, plan, conflicts). -/
def planLockedPass (segs : List Segment) (family : String) :
    List Prfx × List (Int × Prfx) × List Conflict :=
  segs.foldl (planLockedStep family) ([], [], [])

/-- One segment of planAllocateFamily's candidate loop. -/
def planCandStep (family : String) (acc : List Segment × List Conflict) (s : Segment) :
    List Segment × List Conflict :=
  if s.Locked then acc
  else if desiredPrefixByFamily s family == 0 then
    (acc.1, acc.2 ++ [sizeMissingConflict s family])
  else (acc.1 ++ [s], acc.2)

/-- planAllocateFamily's candidate loop: (candidates, conflicts). -/
def planCandidatePass (segs : List Segment) (family : String) :
    List Segment × List Conflict :=
  segs.foldl (planCandStep family) ([], [])

/-- The strategy switch shared by allocateFamily and planAllocateFamily. -/
def strategyAllocate (items : List poolItem) (cands : List Segment) (used : List Prfx)
    (rules : ProjectRules) (family : String) (strict : Bool) :
    List (Int × Prfx) × List Conflict :=
  if rules.PoolStrategy == "contiguous" then allocateContiguous items cands used rules family strict
  else if rules.PoolStrategy == "tiered" then allocateSpillover items cands used rules family strict
  else allocateSpillover items cands used rules family strict

/-- The candidate sort (sort.SliceStable by desired length ascending,
modelled by the stable insertion sort). -/
def sortCandidates (cands : List Segment) (family : String) : List Segment :=
  List.insertionSort
    (fun a b => desiredPrefixByFamily a family ≤ desiredPrefixByFamily b family) cands

/-- planAllocateFamily (allocator.go).  The final "for id, p := range alloc"
merge iterates a Go map; the resulting plan's content does not depend on
that order, and the model folds in the allocation list's order. -/
def planAllocateFamily (segs : List Segment) (pools : List Pool) (reserved : List Prfx)
    (rules : ProjectRules) (family : String) : List (Int × Prfx) × List Conflict :=
  let items := poolItemsForFamily pools family
  if items.isEmpty then
    if !(segmentsNeedFamily segs family) then ([], [])
    else ([], [⟨"POOL_MISSING", "no pools for family " ++ family, statusLevel.warning.Label⟩])
  else
    let lockres := planLockedPass segs family
    let candres := planCandidatePass segs family
    let res := strategyAllocate items (sortCandidates candres.1 family)
      (lockres.1 ++ reserved) rules family false
    (res.1.foldl (fun pl kv => aInsert pl kv.1 kv.2) lockres.2.1,
      lockres.2.2 ++ candres.2 ++ res.2)

/-- applyPlan's per-segment update (what-if file): overwrite both CIDR
columns from the plans (clearing them when the plan has no entry); the
stored text is the prefix's canonical rendering, which parses back to the
same prefix. -/
def applyPlanSeg (planV4 planV6 : List (Int × Prfx)) (s : Segment) : Segment :=
  let s1 :=
    match aFind planV4 s.ID with
    | some p => { s with CIDR := some (.parsed p) }
    | none => { s with CIDR := none }
  match aFind planV6 s1.ID with
  | some p => { s1 with CIDRV6 := some (.parsed p) }
  | none => { s1 with CIDRV6 := none }

/-- applyPlan (what-if file). -/
def applyPlan (segs : List Segment) (planV4 planV6 : List (Int × Prfx)) : List Segment :=
  segs.map (applyPlanSeg planV4 planV6)

/-! ## Persistent allocation (allocator.go allocateFamily)

The store writes go through the transaction's Exec; the model records them
as a list of write operations (Exec itself is assumed to succeed; its own
errors are storage-level).  Go emits the updates by iterating the
allocations map in unspecified order; the model uses the allocation list's
order. -/

inductive WriteOp
  | clear (siteID : Int) (family : String)
  | update (segmentID : Int) (family : String) (cidr : String)
deriving DecidableEq

/-- allocateFamily's locked-CIDR used set. -/
def allocFamilyUsed (segs : List Segment) (family : String) : List Prfx :=
  segs.foldl
    (fun acc s =>
      if !s.Locked then acc
      else
        match segmentCIDRByFamily s family with
        | some (.parsed p) => acc ++ [p]
        | _ => acc)
    []

/-- allocateFamily's candidate filter (not locked, nonzero desired length). -/
def allocFamilyCandidates (segs : List Segment) (family : String) : List Segment :=
  segs.filter fun s => !s.Locked && !(desiredPrefixByFamily s family == 0)

/-- allocateFamily (allocator.go): (store writes performed, error). -/
def allocateFamily (siteID : Int) (segs : List Segment) (pools : List Pool)
    (reserved : List Prfx) (rules : ProjectRules) (family : String) :
    List WriteOp × Option String :=
  let items := poolItemsForFamily pools family
  if items.isEmpty then ([], none)
  else
    let used := allocFamilyUsed segs family ++ reserved
    let candidates := allocFamilyCandidates segs family
    if candidates.isEmpty then ([], none)
    else
      let res := strategyAllocate items (sortCandidates candidates family) used rules family true
      if !res.2.isEmpty then ([], some ((res.2.headD ⟨"", "", ""⟩).Detail))
      else
        (WriteOp.clear siteID family ::
          res.1.map (fun kv => WriteOp.update kv.1 family (kv.2).string), none)

/-! ## Analyzer (analysis.go)

analyzeSegments iterates two Go maps whose iteration order reaches the
output (the per-(site,VRF) overlap groups, v4 and v6); those orders are the
parameters `ord4`, `ord6`.  A Go run iterates each map over exactly its key
set, in unspecified order: the admissible orders are the permutations of
`overlapGroupKeysV4` / `overlapGroupKeysV6`. -/

/-- SegmentStatus (analysis.go). -/
structure SegmentStatus where
  Level : statusLevel
  Details : List String
deriving DecidableEq

/-- addStatus (analysis.go). -/
def addStatus (statuses : List (Int × SegmentStatus)) (id : Int) (level : statusLevel)
    (detail : String) : List (Int × SegmentStatus) :=
  match aFind statuses id with
  | none => statuses ++ [(id, ⟨level, if detail == "" then [] else [detail]⟩)]
  | some st =>
    aInsert statuses id
      ⟨maxLevel st.Level level, if detail == "" then st.Details else st.Details ++ [detail]⟩

/-- prefixInAnyPool (analysis.go). -/
def prefixInAnyPool (p : Prfx) (pools : List Prfx) : Bool :=
  pools.any fun pool => prefixWithin pool p

/-- joinPrefixes (analysis.go). -/
def joinPrefixes (pools : List Prfx) : String :=
  String.intercalate ", " (pools.map Prfx.string)

/-- buildPoolIndex's v4 side (analysis.go), as a site-indexed function: a
pool parses, and lands in v4 unless it is an ipv6-family pool with a
16-byte prefix; only 4-byte prefixes are kept. -/
def buildPoolIndexV4 (pools : List Pool) (siteID : Int) : List Prfx :=
  pools.filterMap fun p =>
    if p.SiteID != siteID then none
    else
      match p.CIDR with
      | .malformed _ => none
      | .parsed q =>
        if normalizePoolFamily p.Family == "ipv6" && q.w == 128 then none
        else if q.w == 32 then some q
        else none

/-- buildPoolIndex's v6 side (analysis.go). -/
def buildPoolIndexV6 (pools : List Pool) (siteID : Int) : List Prfx :=
  pools.filterMap fun p =>
    if p.SiteID != siteID then none
    else
      match p.CIDR with
      | .malformed _ => none
      | .parsed q =>
        if normalizePoolFamily p.Family == "ipv6" && q.w == 128 then some q else none

def reservedParseConflict (siteName raw : String) : Conflict :=
  ⟨"RESERVED_PARSE", "site=" ++ siteName ++ " bad reserved range: " ++ raw,
    statusLevel.warning.Label⟩

/-- buildReservedIndex's conflict list (analysis.go): one RESERVED_PARSE per
malformed token, in sites-then-tokens order. -/
def buildReservedConflicts (sites : List Site) : List Conflict :=
  sites.foldl
    (fun acc s =>
      match s.ReservedRanges with
      | none => acc
      | some toks =>
        acc ++ toks.filterMap fun t =>
          match t with
          | .malformed raw => some (reservedParseConflict s.Name raw)
          | .parsed _ => none)
    []

/-- buildReservedIndex's v4 side (analysis.go), as a site-indexed function. -/
def reservedIndexV4 (sites : List Site) (siteID : Int) : List Prfx :=
  sites.foldl
    (fun acc s =>
      if s.ID != siteID then acc
      else
        match s.ReservedRanges with
        | none => acc
        | some toks =>
          acc ++ toks.filterMap fun t =>
            match t with
            | .parsed p => if p.w == 32 then some p else none
            | .malformed _ => none)
    []

/-- buildReservedIndex's v6 side (analysis.go). -/
def reservedIndexV6 (sites : List Site) (siteID : Int) : List Prfx :=
  sites.foldl
    (fun acc s =>
      if s.ID != siteID then acc
      else
        match s.ReservedRanges with
        | none => acc
        | some toks =>
          acc ++ toks.filterMap fun t =>
            match t with
            | .parsed p => if !(p.w == 32) && p.w == 128 then some p else none
            | .malformed _ => none)
    []

/-- analyzeSegments's prefixByID map (v4): id of each segment whose CIDR
parses, later segments overwriting earlier ones of the same id. -/
def prefixByID (segs : List Segment) : List (Int × Prfx) :=
  segs.foldl
    (fun m s =>
      match s.CIDR with
      | some (.parsed p) => aInsert m s.ID p
      | _ => m)
    []

/-- analyzeSegments's prefixByIDV6 map. -/
def prefixByIDV6 (segs : List Segment) : List (Int × Prfx) :=
  segs.foldl
    (fun m s =>
      match s.CIDRV6 with
      | some (.parsed p) => aInsert m s.ID p
      | _ => m)
    []

/-- analyzeSegments's segByID map. -/
def segByID (segs : List Segment) : List (Int × Segment) :=
  segs.foldl (fun m s => aInsert m s.ID s) []

def prefixOK (segs : List Segment) (id : Int) : Bool :=
  (aFind (prefixByID segs) id).isSome

def prefixOKV6 (segs : List Segment) (id : Int) : Bool :=
  (aFind (prefixByIDV6 segs) id).isSome

def defaultPrfx : Prfx := ⟨0, 0, 0⟩

def defaultSeg : Segment := ⟨0, 0, "", "", 0, "", none, none, none, none, none, false, none, none⟩

/-- The per-segment checks of analyzeSegments's first loop. -/
def analyzeSegOne (poolsV4 poolsV6 reservedV4 reservedV6 : Int → List Prfx)
    (rules : ProjectRules) (acc : List (Int × SegmentStatus) × List Conflict) (s : Segment) :
    List (Int × SegmentStatus) × List Conflict :=
  let st := acc.1
  let cf := acc.2
  let st := if s.PrefixLen.isNone && s.Hosts.isNone then
      addStatus st s.ID .warning "size request missing" else st
  let st := if s.PrefixLenV6.isSome && s.CIDRV6.isNone then
      addStatus st s.ID .warning "v6 not allocated" else st
  let acc4 :=
    match s.CIDR with
    | none => (addStatus st s.ID .warning "not allocated", cf)
    | some (.malformed raw) =>
      (addStatus st s.ID .conflict "invalid CIDR",
        cf ++ [⟨"CIDR_PARSE", "segment " ++ s.Name ++ " site=" ++ s.Site ++ " cidr=" ++ raw ++
          " parse error", statusLevel.conflict.Label⟩])
    | some (.parsed p) =>
      let pools := poolsV4 s.SiteID
      let accPool :=
        if pools.isEmpty then (addStatus st s.ID .warning "no pool defined for site", cf)
        else if !(prefixInAnyPool p pools) then
          let level := if rules.RequireInPool then statusLevel.conflict else statusLevel.warning
          (addStatus st s.ID level "out of pool",
            cf ++ [⟨"OUT_OF_POOL", "segment " ++ s.Name ++ " site=" ++ s.Site ++ " cidr=" ++
              p.string ++ " outside pools: " ++ joinPrefixes pools, level.Label⟩])
        else (st, cf)
      match (reservedV4 s.SiteID).find? (fun r => prefixesOverlap r p) with
      | some r =>
        let level := if !rules.AllowReservedOverlap then statusLevel.conflict else statusLevel.warning
        (addStatus accPool.1 s.ID level "overlaps reserved range",
          accPool.2 ++ [⟨"RESERVED_OVERLAP", "segment " ++ s.Name ++ " site=" ++ s.Site ++
            " cidr=" ++ p.string ++ " overlaps reserved " ++ r.string, level.Label⟩])
      | none => accPool
  match s.CIDRV6 with
  | none => acc4
  | some (.malformed raw) =>
    (addStatus acc4.1 s.ID .conflict "invalid CIDR v6",
      acc4.2 ++ [⟨"CIDR6_PARSE", "segment " ++ s.Name ++ " site=" ++ s.Site ++ " cidr_v6=" ++
        raw ++ " parse error", statusLevel.conflict.Label⟩])
  | some (.parsed p6) =>
    let pools := poolsV6 s.SiteID
    let accPool :=
      if pools.isEmpty then (addStatus acc4.1 s.ID .warning "no v6 pool defined for site", acc4.2)
      else if !(prefixInAnyPool p6 pools) then
        let level := if rules.RequireInPool then statusLevel.conflict else statusLevel.warning
        (addStatus acc4.1 s.ID level "v6 out of pool",
          acc4.2 ++ [⟨"OUT_OF_POOL_V6", "segment " ++ s.Name ++ " site=" ++ s.Site ++
            " cidr_v6=" ++ p6.string ++ " outside v6 pools: " ++ joinPrefixes pools, level.Label⟩])
      else acc4
    match (reservedV6 s.SiteID).find? (fun r => prefixesOverlap r p6) with
    | some r =>
      let level := if !rules.AllowReservedOverlap then statusLevel.conflict else statusLevel.warning
      (addStatus accPool.1 s.ID level "overlaps v6 reserved range",
        accPool.2 ++ [⟨"RESERVED_OVERLAP_V6", "segment " ++ s.Name ++ " site=" ++ s.Site ++
          " cidr_v6=" ++ p6.string ++ " overlaps reserved " ++ r.string, level.Label⟩])
    | none => accPool

/-- The v4 overlap group of one (site, VRF) key: ids in segment order, as the
Go map's per-key slice. -/
def groupIds4 (segs : List Segment) (k : String × String) : List Int :=
  segs.filterMap fun s =>
    if prefixOK segs s.ID && s.Site == k.1 && s.VRF == k.2 then some s.ID else none

def groupIds6 (segs : List Segment) (k : String × String) : List Int :=
  segs.filterMap fun s =>
    if prefixOKV6 segs s.ID && s.Site == k.1 && s.VRF == k.2 then some s.ID else none

/-- The i < j index pairs, in the order of the Go double loop. -/
def pairsOf {α : Type} : List α → List (α × α)
  | [] => []
  | x :: xs => (xs.map fun y => (x, y)) ++ pairsOf xs

/-- One (site, VRF) group's v4 overlap sweep. -/
def overlapPassKey (segs : List Segment) (k : String × String)
    (acc : List (Int × SegmentStatus) × List Conflict) :
    List (Int × SegmentStatus) × List Conflict :=
  (pairsOf (groupIds4 segs k)).foldl
    (fun a ab =>
      let p1 := (aFind (prefixByID segs) ab.1).getD defaultPrfx
      let p2 := (aFind (prefixByID segs) ab.2).getD defaultPrfx
      if prefixesOverlap p1 p2 then
        let s1 := (aFind (segByID segs) ab.1).getD defaultSeg
        let s2 := (aFind (segByID segs) ab.2).getD defaultSeg
        (addStatus (addStatus a.1 s1.ID .conflict ("overlap with " ++ s2.Name))
            s2.ID .conflict ("overlap with " ++ s1.Name),
          a.2 ++ [⟨"OVERLAP", "site=" ++ k.1 ++ " vrf=" ++ k.2 ++ ": " ++ s1.Name ++ " " ++
            p1.string ++ " overlaps " ++ s2.Name ++ " " ++ p2.string,
            statusLevel.conflict.Label⟩])
      else a)
    acc

/-- One (site, VRF) group's v6 overlap sweep. -/
def overlapPassKeyV6 (segs : List Segment) (k : String × String)
    (acc : List (Int × SegmentStatus) × List Conflict) :
    List (Int × SegmentStatus) × List Conflict :=
  (pairsOf (groupIds6 segs k)).foldl
    (fun a ab =>
      let p1 := (aFind (prefixByIDV6 segs) ab.1).getD defaultPrfx
      let p2 := (aFind (prefixByIDV6 segs) ab.2).getD defaultPrfx
      if prefixesOverlap p1 p2 then
        let s1 := (aFind (segByID segs) ab.1).getD defaultSeg
        let s2 := (aFind (segByID segs) ab.2).getD defaultSeg
        (addStatus (addStatus a.1 s1.ID .conflict ("v6 overlap with " ++ s2.Name))
            s2.ID .conflict ("v6 overlap with " ++ s1.Name),
          a.2 ++ [⟨"OVERLAP_V6", "site=" ++ k.1 ++ " vrf=" ++ k.2 ++ ": " ++ s1.Name ++ " " ++
            p1.string ++ " overlaps " ++ s2.Name ++ " " ++ p2.string,
            statusLevel.conflict.Label⟩])
      else a)
    acc

/-- vlanKey (rules file). -/
def vlanKey (s : Segment) (rules : ProjectRules) : String :=
  if rules.VLANScope == "global" then itoa s.VLAN
  else if rules.VLANScope == "site" then s.Site ++ "|" ++ itoa s.VLAN
  else s.Site ++ "|" ++ s.VRF ++ "|" ++ itoa s.VLAN

/-- One step of the VLAN-duplicate sweep of analyzeSegments; the state is
(seenVLAN, statuses, conflicts). -/
def vlanStep (segAssoc : List (Int × Segment)) (rules : ProjectRules)
    (state : List (String × Int) × List (Int × SegmentStatus) × List Conflict) (s : Segment) :
    List (String × Int) × List (Int × SegmentStatus) × List Conflict :=
  let k := vlanKey s rules
  match aFind state.1 k with
  | some firstID =>
    let first := (aFind segAssoc firstID).getD defaultSeg
    (state.1,
      addStatus (addStatus state.2.1 s.ID .conflict "duplicate VLAN") firstID .conflict
        "duplicate VLAN",
      state.2.2 ++ [⟨"VLAN_DUP", "site=" ++ s.Site ++ " vrf=" ++ s.VRF ++ " vlan=" ++
        itoa s.VLAN ++ " duplicated: " ++ first.Name ++ ", " ++ s.Name,
        statusLevel.conflict.Label⟩])
  | none => (state.1 ++ [(k, s.ID)], state.2.1, state.2.2)

/-- The VLAN-duplicate sweep of analyzeSegments, with its seenVLAN map. -/
def vlanGo (segAssoc : List (Int × Segment)) (rules : ProjectRules)
    (segs : List Segment) (seen : List (String × Int))
    (acc : List (Int × SegmentStatus) × List Conflict) :
    List (Int × SegmentStatus) × List Conflict :=
  let r := segs.foldl (vlanStep segAssoc rules) (seen, acc.1, acc.2)
  (r.2.1, r.2.2)

/-- The final per-segment status map of analyzeSegments (missing ids get the
zero value, level OK). -/
def statusesOut (segs : List Segment) (st : List (Int × SegmentStatus)) :
    List (Int × SegmentStatus) :=
  segs.foldl (fun out s => aInsert out s.ID ((aFind st s.ID).getD ⟨.ok, []⟩)) []

/-- analyzeSegments (analysis.go); `ord4`/`ord6` are the Go map iteration
orders of the two overlap-group maps. -/
def analyzeSegments (ord4 ord6 : List (String × String)) (segs : List Segment)
    (poolsV4 poolsV6 reservedV4 reservedV6 : Int → List Prfx) (rules : ProjectRules) :
    List (Int × SegmentStatus) × List Conflict :=
  let acc := segs.foldl (analyzeSegOne poolsV4 poolsV6 reservedV4 reservedV6 rules) ([], [])
  let acc := ord4.foldl (fun a k => overlapPassKey segs k a) acc
  let acc := ord6.foldl (fun a k => overlapPassKeyV6 segs k a) acc
  let acc := vlanGo (segByID segs) rules segs [] acc
  (statusesOut segs acc.1, acc.2)

/-- The v4 overlap-group map's key set (one admissible iteration order; a Go
run uses some permutation of it). -/
def overlapGroupKeysV4 (segs : List Segment) : List (String × String) :=
  ((segs.filter fun s => prefixOK segs s.ID).map fun s => (s.Site, s.VRF)).dedup

def overlapGroupKeysV6 (segs : List Segment) : List (String × String) :=
  ((segs.filter fun s => prefixOKV6 segs s.ID).map fun s => (s.Site, s.VRF)).dedup

/-! ## Efficiency reporter (analysis.go analyzeEfficiency) -/

/-- The segmentsBySite map, as a function. -/
def segmentsBySite (segs : List Segment) (siteID : Int) : List Segment :=
  segs.filter fun s => s.SiteID == siteID

def formatBigIntGroup (cs : List Char) : List Char :=
  if _h : cs.length ≤ 3 then cs
  else cs.take 3 ++ '_' :: formatBigIntGroup (cs.drop 3)
termination_by cs.length
decreasing_by simp [List.length_drop]; omega

/-- formatBigInt (capacity file): decimal text, thousands grouped with _. -/
def formatBigInt (val : Int) : String :=
  let text := toString val
  if text.length ≤ 3 then text
  else String.mk ((formatBigIntGroup text.data.reverse).reverse)

/-- One v4 pool's fragmentation block of analyzeEfficiency. -/
def fragPoolV4 (segs : List Segment) (reservedV4 : Int → List Prfx) (siteID : Int)
    (pool : Prfx) : List Conflict :=
  if !(pool.w == 32) then []
  else
    let used := buildUsedRanges pool (segmentsBySite segs siteID) (reservedV4 siteID)
    let gaps := freeRanges pool used
    if gaps.isEmpty then []
    else
      let totalFree := gaps.foldl (fun a g => a + (g.endv - g.start + 1)) 0
      let largest := gaps.foldl
        (fun a g => if a < g.endv - g.start + 1 then g.endv - g.start + 1 else a) 0
      let frag := fragmentationScore totalFree largest
      ⟨"POOL_FRAGMENTATION", "pool " ++ pool.string ++ ": free " ++ itoa (totalFree : Int) ++
          " addrs, gaps=" ++ itoa (gaps.length : Int) ++ ", fragmentation=" ++ itoa frag ++ "%",
        statusLevel.warning.Label⟩ ::
      ((gaps.map rangeToPrefixes).flatten.take 3).map fun p =>
        ⟨"POOL_GAP", "pool " ++ pool.string ++ " free block " ++ p.string,
          statusLevel.warning.Label⟩

/-- The v6 gap-hint loop (limit threaded through bigRangeToPrefixes). -/
def gapHintsV6 (pool : Prfx) (unitP : Int) : Nat → List bigRange → List Conflict
  | 0, _ => []
  | _, [] => []
  | limit + 1, g :: gs =>
    let ps := bigRangeToPrefixes g unitP ((limit : Int) + 1)
    (ps.map fun p =>
      ⟨"POOL_GAP_V6", "pool " ++ pool.string ++ " free block " ++ p.string,
        statusLevel.warning.Label⟩) ++
    gapHintsV6 pool unitP (limit + 1 - ps.length) gs

/-- One v6 pool's fragmentation block of analyzeEfficiency. -/
def fragPoolV6 (segs : List Segment) (reservedV6 : Int → List Prfx) (siteID : Int)
    (pool : Prfx) : List Conflict :=
  if !(pool.w == 128) then []
  else
    let usedP := collectUsedPrefixesV6 (segmentsBySite segs siteID) (reservedV6 siteID)
    let used := buildUsedRangesBig pool usedP
    let gaps := freeRangesBig pool used
    if gaps.isEmpty then []
    else
      let totalFree := gaps.foldl (fun a g => a + bigRangeSize g) 0
      let largest := gaps.foldl (fun a g => if a < bigRangeSize g then bigRangeSize g else a) 0
      let unitP : Int := if 64 < (pool.bits : Int) then (pool.bits : Int) else 64
      let unitSize : Int := (2:Int) ^ (128 - unitP.toNat)
      let totalUnits := totalFree.ediv unitSize
      let largestUnits := largest.ediv unitSize
      let frag := fragmentationScoreBig totalUnits largestUnits
      ⟨"POOL_FRAGMENTATION_V6", "pool " ++ pool.string ++ ": free " ++ formatBigInt totalUnits ++
          " /" ++ itoa unitP ++ " blocks, gaps=" ++ itoa (gaps.length : Int) ++
          ", fragmentation=" ++ itoa frag ++ "%", statusLevel.warning.Label⟩ ::
      gapHintsV6 pool unitP 3 gaps

/-- One iteration of the v4 oversize sweep of analyzeEfficiency (uint64
arithmetic; the branch guarantees actualSize > requiredSize, where Nat
subtraction agrees). -/
def oversizedV4One (rules : ProjectRules) (s : Segment) : Option Conflict :=
  match s.Hosts, s.CIDR with
  | some h, some (.parsed p) =>
    if !(p.w == 32) then none
    else
      let required := hostsToPrefixIPv4 h
      if required ≤ 0 then none
      else if required ≤ (p.bits : Int) then none
      else
        let actualSize : Nat := 2 ^ (32 - p.bits)
        let requiredSize : Nat := 2 ^ (32 - required.toNat)
        let unusedPct : Int := (((actualSize - requiredSize) * 100 / actualSize : Nat) : Int)
        if rules.OversizeThreshold ≤ unusedPct then
          some ⟨"OVERSIZED", "segment " ++ s.Name ++ " site=" ++ s.Site ++ " " ++ p.string ++
            " exceeds hosts by " ++ itoa unusedPct ++ "% (need /" ++ itoa required ++ ")",
            statusLevel.warning.Label⟩
        else none
  | _, _ => none

/-- The v4 oversize sweep of analyzeEfficiency. -/
def oversizedV4 (segs : List Segment) (rules : ProjectRules) : List Conflict :=
  segs.filterMap (oversizedV4One rules)

/-- The oversize rule stated from the (corrected) claim's words: a segment
draws an OVERSIZED conflict exactly when it has a host-count request and a
parsed IPv4 CIDR whose length is strictly SMALLER than the recomputed
required length hostsToPrefixIPv4(hosts) — the assigned block is bigger
than needed — and the wasted fraction
(actualSize - requiredSize) * 100 / actualSize meets the threshold. -/
def oversizedCondV4 (rules : ProjectRules) (s : Segment) : Prop :=
  ∃ h p, s.Hosts = some h ∧ s.CIDR = some (.parsed p) ∧ p.w = 32 ∧
    (p.bits : Int) < hostsToPrefixIPv4 h ∧
    rules.OversizeThreshold ≤
      (((2 ^ (32 - p.bits) - 2 ^ (32 - (hostsToPrefixIPv4 h).toNat)) * 100 /
        2 ^ (32 - p.bits) : Nat) : Int)

/-- The v6 oversize sweep of analyzeEfficiency. -/
def oversizedV6 (segs : List Segment) (rules : ProjectRules) : List Conflict :=
  segs.filterMap fun s =>
    match s.PrefixLenV6, s.CIDRV6 with
    | some req, some (.parsed p) =>
      if !(p.w == 128) then none
      else if req ≤ 0 || 128 < req then none
      else if req ≤ (p.bits : Int) then none
      else
        let unusedPct := percentBig (prefixSizeZ p - (2:Int) ^ (128 - req.toNat)) (prefixSizeZ p)
        if rules.OversizeThreshold ≤ unusedPct then
          some ⟨"OVERSIZED_V6", "segment " ++ s.Name ++ " site=" ++ s.Site ++ " " ++ p.string ++
            " exceeds v6 request by " ++ itoa unusedPct ++ "% (need /" ++ itoa req ++ ")",
            statusLevel.warning.Label⟩
        else none
    | _, _ => none

/-- analyzeEfficiency (analysis.go); `ordSitesV4`/`ordSitesV6` are the Go
iteration orders over the two pool-index maps' keys. -/
def analyzeEfficiency (ordSitesV4 ordSitesV6 : List Int) (segs : List Segment)
    (poolsBySiteV4 poolsBySiteV6 reservedV4 reservedV6 : Int → List Prfx)
    (rules : ProjectRules) : List Conflict :=
  ((ordSitesV4.map fun siteID =>
      ((poolsBySiteV4 siteID).map (fragPoolV4 segs reservedV4 siteID)).flatten).flatten) ++
  ((ordSitesV6.map fun siteID =>
      ((poolsBySiteV6 siteID).map (fragPoolV6 segs reservedV6 siteID)).flatten).flatten) ++
  oversizedV4 segs rules ++ oversizedV6 segs rules

/-- The v4 pool-index map's key set (admissible efficiency iteration orders
are its permutations). -/
def poolSiteKeysV4 (pools : List Pool) : List Int :=
  (pools.filterMap fun p =>
    match p.CIDR with
    | .malformed _ => none
    | .parsed q =>
      if normalizePoolFamily p.Family == "ipv6" && q.w == 128 then none
      else if q.w == 32 then some p.SiteID
      else none).dedup

def poolSiteKeysV6 (pools : List Pool) : List Int :=
  (pools.filterMap fun p =>
    match p.CIDR with
    | .malformed _ => none
    | .parsed q =>
      if normalizePoolFamily p.Family == "ipv6" && q.w == 128 then some p.SiteID else none).dedup

/-- analyzeAll (analysis.go). -/
def analyzeAll (ord4 ord6 : List (String × String)) (ordSitesV4 ordSitesV6 : List Int)
    (segs : List Segment) (pools : List Pool) (sites : List Site) (rules : ProjectRules) :
    List (Int × SegmentStatus) × List Conflict :=
  let pV4 := buildPoolIndexV4 pools
  let pV6 := buildPoolIndexV6 pools
  let rV4 := reservedIndexV4 sites
  let rV6 := reservedIndexV6 sites
  let res := analyzeSegments ord4 ord6 segs pV4 pV6 rV4 rV6 rules
  let hints := analyzeEfficiency ordSitesV4 ordSitesV6 segs pV4 pV6 rV4 rV6 rules
  (res.1, buildReservedConflicts sites ++ res.2 ++ hints)

/-! ## Association-list lemmas -/

theorem aFind_cons {κ α : Type} [BEq κ] (kv : κ × α) (m : List (κ × α)) (k : κ) :
    aFind (kv :: m) k = if kv.1 == k then some kv.2 else aFind m k := by
  simp only [aFind, List.find?_cons]
  cases h : kv.1 == k <;> simp [h]

theorem aFind_append {κ α : Type} [BEq κ] (m l : List (κ × α)) (k : κ) :
    aFind (m ++ l) k = (aFind m k).or (aFind l k) := by
  simp only [aFind, List.find?_append]
  cases List.find? (fun kv => kv.1 == k) m <;> simp

theorem aFind_eq_none_iff {κ α : Type} [BEq κ] (m : List (κ × α)) (k : κ) :
    aFind m k = none ↔ ∀ kv ∈ m, ¬(kv.1 == k) := by
  simp [aFind, List.find?_eq_none]

theorem aFind_map_subst_self {κ α : Type} [BEq κ] [LawfulBEq κ] (m : List (κ × α)) (k : κ)
    (v : α) (h : m.any (fun kv => kv.1 == k) = true) :
    aFind (m.map fun kv => if kv.1 == k then (k, v) else kv) k = some v := by
  induction m with
  | nil => simp at h
  | cons kv rest ih =>
    rw [List.map_cons, aFind_cons]
    by_cases hk : (kv.1 == k) = true
    · rw [if_pos hk]
      simp
    · rw [if_neg hk, if_neg hk]
      apply ih
      simpa [List.any_cons, hk] using h

theorem aFind_aInsert_self {κ α : Type} [BEq κ] [LawfulBEq κ] (m : List (κ × α)) (k : κ)
    (v : α) : aFind (aInsert m k v) k = some v := by
  unfold aInsert
  by_cases h : m.any (fun kv => kv.1 == k) = true
  · rw [if_pos h]
    exact aFind_map_subst_self m k v h
  · rw [if_neg h, aFind_append]
    have hm : aFind m k = none := by
      rw [aFind_eq_none_iff]
      intro kv hkv hbeq
      exact h (List.any_eq_true.mpr ⟨kv, hkv, hbeq⟩)
    rw [hm, Option.none_or, aFind_cons]
    simp

theorem aFind_map_subst_ne {κ α : Type} [BEq κ] [LawfulBEq κ] (m : List (κ × α)) (k k' : κ)
    (v : α) (h : k' ≠ k) :
    aFind (m.map fun kv => if kv.1 == k then (k, v) else kv) k' = aFind m k' := by
  induction m with
  | nil => rfl
  | cons kv rest ih =>
    rw [List.map_cons, aFind_cons, aFind_cons]
    by_cases hk : (kv.1 == k) = true
    · rw [if_pos hk]
      have hkk : kv.1 = k := by simpa using hk
      have h1 : ¬((((k, v) : κ × α).1 == k') = true) := by
        simp only [beq_iff_eq]
        exact fun hh => h hh.symm
      have h2 : ¬((kv.1 == k') = true) := by
        simp only [beq_iff_eq, hkk]
        exact fun hh => h hh.symm
      rw [if_neg h1, if_neg h2]
      exact ih
    · rw [if_neg hk]
      by_cases hk' : (kv.1 == k') = true
      · rw [if_pos hk', if_pos hk']
      · rw [if_neg hk', if_neg hk']
        exact ih

theorem aFind_aInsert_ne {κ α : Type} [BEq κ] [LawfulBEq κ] (m : List (κ × α)) (k k' : κ)
    (v : α) (h : k' ≠ k) : aFind (aInsert m k v) k' = aFind m k' := by
  unfold aInsert
  by_cases ha : m.any (fun kv => kv.1 == k) = true
  · rw [if_pos ha]
    exact aFind_map_subst_ne m k k' v h
  · rw [if_neg ha, aFind_append]
    have hone : aFind [(k, v)] k' = none := by
      rw [aFind_eq_none_iff]
      intro kv hkv
      simp only [List.mem_singleton] at hkv
      subst hkv
      simp only [beq_iff_eq]
      exact fun hh => h hh.symm
    rw [hone]
    cases aFind m k' <;> rfl

theorem aInsert_key_mem {κ α : Type} [BEq κ] [LawfulBEq κ] (m : List (κ × α)) (k : κ) (v : α)
    (kv : κ × α) (h : kv ∈ aInsert m k v) : kv ∈ m ∨ kv.1 = k := by
  unfold aInsert at h
  by_cases ha : m.any (fun kv => kv.1 == k) = true
  · rw [if_pos ha] at h
    rw [List.mem_map] at h
    obtain ⟨kv0, hkv0, heq⟩ := h
    by_cases hk : (kv0.1 == k) = true
    · rw [if_pos hk] at heq
      right
      rw [← heq]
    · rw [if_neg hk] at heq
      left
      rw [← heq]
      exact hkv0
  · rw [if_neg ha, List.mem_append, List.mem_singleton] at h
    rcases h with h | h
    · exact Or.inl h
    · right
      rw [h]

/-! ## Claim C1 -/

def c1pfx : Prfx := ⟨32, 4294901760, 17⟩

def c1bad : Prfx := ⟨32, 4294901760, 16⟩

def c1pool : Pool := ⟨1, 1, "S", .parsed c1pfx, "ipv4", none, 0⟩

def c1item : poolItem := ⟨c1pool, c1pfx, ""⟩

def c1seg : Segment := ⟨1, 1, "S", "r", 10, "s1", none, some 16, none, none, none, false, none, none⟩

/-- C1: the claim fails on the code: with the one-pool catalog 255.255.0.0/17
and a single unlocked segment requesting a /16, allocateSpillover (strict,
ipv4, empty used set) allocates 255.255.0.0/16 to the segment with no
conflict — a prefix that is not entirely contained in the only pool of the
catalog (its last address 255.255.255.255 lies outside): in
allocateInPoolIPv4 the uint32 sum `cur+step` wraps to 0, which passes the
`<= end` bound although the candidate block is larger than the pool. -/
theorem C1_allocation_escapes_pool :
    allocateSpillover [c1item] [c1seg] [] defaultProjectRules "ipv4" true =
      ([(1, c1bad)], []) ∧
    allocateInPoolIPv4 c1pfx 16 [] = some c1bad ∧
    prefixWithin c1pfx c1bad = false ∧
    prefixLastAddr c1bad = 4294967295 ∧
    (4294901760 : Int) + prefixSizeZ c1pfx - 1 = 4294934527 := by
  refine ⟨by decide, by decide, by decide, by decide, by decide⟩

/-! ## Claim C9 -/

def c9pool : Prfx := ⟨32, 4294967040, 24⟩

def c9seg : Segment :=
  ⟨1, 1, "RES", "r", 10, "top", none, none, some (.parsed c9pool), none, none, true, none, none⟩

def c9used : List ipv4Range := buildUsedRanges c9pool [c9seg] []

/-- C9: the claim fails on the code: for the pool 255.255.255.0/24 whose
single used range covers the whole pool (a locked segment at the same
prefix), freeRanges returns the whole pool again instead of the empty
complement — in the cursor update `cur = r.end + 1` the uint32 sum wraps to
0 at the top of the address space, so the cursor never passes the used
range.  Used plus free then counts 512 addresses against a pool of 256, and
an address (e.g. the pool start) lies in both a used and a "free" range. -/
theorem C9_free_ranges_wrap :
    c9used = [⟨4294967040, 4294967295⟩] ∧
    freeRanges c9pool c9used = [⟨4294967040, 4294967295⟩] ∧
    sumIPv4Ranges c9used + sumIPv4Ranges (freeRanges c9pool c9used) = 512 ∧
    prefixSizeZ c9pool = 256 := by
  refine ⟨by decide, by decide, by decide, by decide⟩

/-! ## Claim C5 -/

def c5mkSeg (id : Int) (site vrf : String) (vlan : Int) (name : String) (p : Prfx) : Segment :=
  ⟨id, 1, site, vrf, vlan, name, none, none, some (.parsed p), none, none, false, none, none⟩

def c5segs : List Segment :=
  [c5mkSeg 1 "A" "r" 10 "a1" ⟨32, 167772160, 24⟩,
   c5mkSeg 2 "A" "r" 11 "a2" ⟨32, 167772160, 25⟩,
   c5mkSeg 3 "B" "r" 12 "b1" ⟨32, 167837696, 24⟩,
   c5mkSeg 4 "B" "r" 13 "b2" ⟨32, 167837696, 25⟩]

def c5ord1 : List (String × String) := [("A", "r"), ("B", "r")]

def c5ord2 : List (String × String) := [("B", "r"), ("A", "r")]

/-- C5: the claim fails on the code: analyzeSegments iterates the overlap
group map with `for k, ids := range group`, and Go map iteration order is
unspecified (randomized per run).  Both listed orders are permutations of
the group key set, i.e. orders a Go run can take, and they yield different
conflict lists on the same input (two overlapping pairs at sites A and B:
the two OVERLAP conflicts swap).  The within-call phase ordering the claim
also states is real, but the run-to-run determinism it asserts is not. -/
theorem C5_conflict_order_run_dependent :
    c5ord1.Perm (overlapGroupKeysV4 c5segs) ∧
    c5ord2.Perm (overlapGroupKeysV4 c5segs) ∧
    overlapGroupKeysV6 c5segs = [] ∧
    poolSiteKeysV4 [] = [] ∧ poolSiteKeysV6 [] = [] ∧
    (analyzeAll c5ord1 [] [] [] c5segs [] [] defaultProjectRules).2 ≠
      (analyzeAll c5ord2 [] [] [] c5segs [] [] defaultProjectRules).2 := by
  refine ⟨by decide, by decide, by decide, by decide, by decide, by decide⟩

/-! ## Claim C7: counterexample -/

def c7seg : Segment :=
  ⟨1, 1, "S", "r", 10, "crm", some 60, none, some (.parsed ⟨32, 167772160, 24⟩), none, none,
    false, none, none⟩

/-- C7 counterexample: segment with hosts 60 and assigned 10.0.0.0/24 under
the default 50% threshold.  The recomputed required length is 26 and the
actual length 24 is NOT strictly larger than it, so the claim's "otherwise
no OVERSIZED conflict is emitted" applies — yet analyzeEfficiency emits an
OVERSIZED conflict for the segment.  (The code emits when the actual length
is strictly SMALLER, i.e. the block is bigger than needed.) -/
theorem C7_counterexample :
    hostsToPrefixIPv4 60 = 26 ∧
    ¬((26:Int) < 24) ∧
    (analyzeEfficiency [] [] [c7seg] (fun _ => []) (fun _ => []) (fun _ => []) (fun _ => [])
        defaultProjectRules).filter (fun c => c.Kind == "OVERSIZED") ≠ [] := by
  refine ⟨by decide, by decide, by decide⟩

/-! ## Claim C3 -/

theorem hostsToPrefixAux_spec (need : Int) :
    ∀ t : Nat, t ≤ 32 →
      (∀ q : Nat, t < q → q ≤ 32 → (2:Int) ^ (32 - q) < need) →
      (∃ p : Nat, 1 ≤ p ∧ p ≤ t ∧ need ≤ (2:Int) ^ (32 - p)) →
      ∃ n : Nat, hostsToPrefixAux need t = (n : Int) ∧ 1 ≤ n ∧ n ≤ t ∧
        need ≤ (2:Int) ^ (32 - n) ∧ ∀ q : Nat, n < q → q ≤ 32 → (2:Int) ^ (32 - q) < need := by
  intro t
  induction t with
  | zero =>
    rintro _ _ ⟨p, hp1, hp0, _⟩
    omega
  | succ t ih =>
    intro ht hup hex
    by_cases hc : need ≤ (2:Int) ^ (32 - (t + 1))
    · refine ⟨t + 1, ?_, by omega, by omega, hc, hup⟩
      have hx : hostsToPrefixAux need (t + 1) = (t : Int) + 1 := by
        have hc' : need ≤ (2:Int) ^ (31 - t) := by
          have he : 32 - (t + 1) = 31 - t := by omega
          rwa [he] at hc
        simp [hostsToPrefixAux, hc']
      rw [hx]
      push_cast
      ring
    · have hstep : hostsToPrefixAux need (t + 1) = hostsToPrefixAux need t := by
        have hc' : ¬need ≤ (2:Int) ^ (31 - t) := by
          have he : 32 - (t + 1) = 31 - t := by omega
          rwa [he] at hc
        simp [hostsToPrefixAux, hc']
      have hup' : ∀ q : Nat, t < q → q ≤ 32 → (2:Int) ^ (32 - q) < need := by
        intro q hq1 hq2
        by_cases hq : q = t + 1
        · subst hq
          exact lt_of_not_le hc
        · exact hup q (by omega) hq2
      have hex' : ∃ p : Nat, 1 ≤ p ∧ p ≤ t ∧ need ≤ (2:Int) ^ (32 - p) := by
        obtain ⟨p, hp1, hpt, hple⟩ := hex
        rcases Nat.eq_or_lt_of_le hpt with h | h
        · rw [h] at hple
          exact absurd hple hc
        · exact ⟨p, hp1, by omega, hple⟩
      obtain ⟨n, heq, hn1, hnt, hle, hupn⟩ := ih (by omega) hup' hex'
      exact ⟨n, by rw [hstep]; exact heq, hn1, by omega, hle, hupn⟩

/-- C3: for every host count h with 1 ≤ h ≤ 2^30, hostsToPrefixIPv4 h is the
length L with 2^(32−L) ≥ h + 3 and 2^(32−(L+1)) < h + 3 (the next-longer
prefix would not fit h + 3 addresses). -/
theorem C3_hosts_to_prefix_v4 (h : Int) (h1 : 1 ≤ h) (h2 : h ≤ 2 ^ 30) :
    ∃ n : Nat, hostsToPrefixIPv4 h = (n : Int) ∧ 1 ≤ n ∧ n ≤ 31 ∧
      h + 3 ≤ (2:Int) ^ (32 - n) ∧ (2:Int) ^ (32 - (n + 1)) < h + 3 := by
  have e30 : (2:Int) ^ (30:Nat) = 1073741824 := by norm_num
  have e31 : (2:Int) ^ ((32:Nat) - 1) = 2147483648 := by norm_num
  have hmain := hostsToPrefixAux_spec (h + 3) 32 (le_refl 32)
    (by intro q hq1 hq2; omega)
    (⟨1, le_refl 1, by omega, by rw [e31]; omega⟩)
  obtain ⟨n, heq, hn1, hn32, hle, hup⟩ := hmain
  have hn31 : n ≤ 31 := by
    by_contra hgt
    have hn : n = 32 := by omega
    rw [hn] at hle
    norm_num at hle
    omega
  refine ⟨n, heq, hn1, hn31, hle, hup (n + 1) (by omega) (by omega)⟩

/-- C3 witness: the theorem applied at h = 60 (required length 26). -/
theorem C3_hosts_witness :
    ∃ n : Nat, hostsToPrefixIPv4 60 = (n : Int) ∧ 1 ≤ n ∧ n ≤ 31 ∧
      (60:Int) + 3 ≤ (2:Int) ^ (32 - n) ∧ (2:Int) ^ (32 - (n + 1)) < 60 + 3 :=
  C3_hosts_to_prefix_v4 60 (by norm_num) (by norm_num)

/-! ## Claim C10 -/

theorem spillGo_conflict_shape (items : List poolItem) (rules : ProjectRules) (family : String)
    (strict : Bool) :
    ∀ (segs : List Segment) (used : List Prfx) (alloc : List (Int × Prfx)),
      ∀ c ∈ (spillGo items rules family strict segs used alloc).2,
        ∃ s : Segment, c = allocFailConflict s family := by
  intro segs
  induction segs with
  | nil =>
    intro used alloc c hc
    simp [spillGo] at hc
  | cons s rest ih =>
    intro used alloc c hc
    simp only [spillGo] at hc
    by_cases hw : (desiredPrefixByFamily s family == 0) = true
    · rw [if_pos hw] at hc
      exact ih used alloc c hc
    · rw [if_neg hw] at hc
      rcases hf : findPoolAlloc (desiredPrefixByFamily s family) used
          (if rules.PoolStrategy == "tiered" then
            filterPoolsByTier items (segmentTierValue s) rules.PoolTierFallback
          else items) with _ | p
      · rw [hf] at hc
        by_cases hs : strict = true
        · rw [if_pos hs] at hc
          simp only [List.mem_singleton] at hc
          exact ⟨s, hc⟩
        · rw [if_neg hs] at hc
          simp only [List.mem_cons] at hc
          rcases hc with hc | hc
          · exact ⟨s, hc⟩
          · exact ih used alloc c hc
      · rw [hf] at hc
        exact ih (used ++ [p]) (aInsert alloc s.ID p) c hc

theorem contigFails_shape (family : String) (strict : Bool) :
    ∀ pend : List Segment, ∀ c ∈ contigFails family strict pend,
      ∃ s : Segment, c = allocFailConflict s family := by
  intro pend
  induction pend with
  | nil =>
    intro c hc
    simp [contigFails] at hc
  | cons s rest ih =>
    intro c hc
    simp only [contigFails] at hc
    by_cases hs : strict = true
    · rw [if_pos hs] at hc
      simp only [List.mem_singleton] at hc
      exact ⟨s, hc⟩
    · rw [if_neg hs] at hc
      simp only [List.mem_cons] at hc
      rcases hc with hc | hc
      · exact ⟨s, hc⟩
      · exact ih c hc

/-- C10: every ALLOCATE_FAIL conflict emitted by allocateSpillover and by
allocateContiguous carries Level "Warning" (statusWarning.Label()), never
"Conflict", for every input, strict or not. -/
theorem C10_allocate_fail_level (items : List poolItem) (segs : List Segment) (used : List Prfx)
    (rules : ProjectRules) (family : String) (strict : Bool) (c : Conflict)
    (hc : c ∈ (allocateSpillover items segs used rules family strict).2 ∨
      c ∈ (allocateContiguous items segs used rules family strict).2) :
    c.Kind = "ALLOCATE_FAIL" ∧ c.Level = statusLevel.warning.Label ∧
      c.Level = "Warning" ∧ c.Level ≠ "Conflict" := by
  have hshape : ∃ s : Segment, c = allocFailConflict s family := by
    rcases hc with hc | hc
    · exact spillGo_conflict_shape items rules family strict segs used [] c hc
    · exact contigFails_shape family strict _ c hc
  obtain ⟨s, rfl⟩ := hshape
  refine ⟨rfl, rfl, rfl, ?_⟩
  show ("Warning" : String) ≠ "Conflict"
  decide

def c10seg : Segment := ⟨7, 1, "S", "r", 20, "w", none, some 24, none, none, none, false, none, none⟩

/-- C10 witness: with an empty catalog the one candidate fails; its conflict
is an ALLOCATE_FAIL at Level Warning. -/
theorem C10_allocate_fail_witness :
    (allocFailConflict c10seg "ipv4").Kind = "ALLOCATE_FAIL" ∧
    (allocFailConflict c10seg "ipv4").Level = statusLevel.warning.Label ∧
    (allocFailConflict c10seg "ipv4").Level = "Warning" ∧
    (allocFailConflict c10seg "ipv4").Level ≠ "Conflict" :=
  C10_allocate_fail_level [] [c10seg] [] defaultProjectRules "ipv4" false
    (allocFailConflict c10seg "ipv4") (Or.inl (by decide))

/-! ## Claim C6 -/

theorem spillGo_strict_stop (items : List poolItem) (rules : ProjectRules) (family : String) :
    ∀ (segs : List Segment) (used : List Prfx) (alloc : List (Int × Prfx)),
      (∀ t ∈ segs, aFind alloc t.ID = none) →
      (segs.map Segment.ID).Nodup →
      (spillGo items rules family true segs used alloc).2 ≠ [] →
      ∃ pre s post, segs = pre ++ s :: post ∧
        (spillGo items rules family true segs used alloc).2 = [allocFailConflict s family] ∧
        ∀ t ∈ s :: post, aFind (spillGo items rules family true segs used alloc).1 t.ID = none := by
  intro segs
  induction segs with
  | nil =>
    intro used alloc _ _ hne
    simp [spillGo] at hne
  | cons s rest ih =>
    intro used alloc hdisj hnodup hne
    have hnd : (rest.map Segment.ID).Nodup := by
      rw [List.map_cons, List.nodup_cons] at hnodup
      exact hnodup.2
    have hsid : s.ID ∉ rest.map Segment.ID := by
      rw [List.map_cons, List.nodup_cons] at hnodup
      exact hnodup.1
    by_cases hw : (desiredPrefixByFamily s family == 0) = true
    · have heq : spillGo items rules family true (s :: rest) used alloc =
          spillGo items rules family true rest used alloc := by
        simp only [spillGo]
        rw [if_pos hw]
      rw [heq] at hne ⊢
      obtain ⟨pre, s', post, hsplit, hcf, hpost⟩ := ih used alloc
        (fun t ht => hdisj t (List.mem_cons_of_mem s ht)) hnd hne
      exact ⟨s :: pre, s', post, by rw [hsplit, List.cons_append], hcf, hpost⟩
    · rcases hf : findPoolAlloc (desiredPrefixByFamily s family) used
          (if rules.PoolStrategy == "tiered" then
            filterPoolsByTier items (segmentTierValue s) rules.PoolTierFallback
          else items) with _ | p
      · have heq : spillGo items rules family true (s :: rest) used alloc =
            (alloc, [allocFailConflict s family]) := by
          simp only [spillGo]
          rw [if_neg hw, hf]
          rfl
        rw [heq]
        exact ⟨[], s, rest, rfl, rfl, fun t ht => hdisj t ht⟩
      · have heq : spillGo items rules family true (s :: rest) used alloc =
            spillGo items rules family true rest (used ++ [p]) (aInsert alloc s.ID p) := by
          simp only [spillGo]
          rw [if_neg hw, hf]
        have hdisj' : ∀ t ∈ rest, aFind (aInsert alloc s.ID p) t.ID = none := by
          intro t ht
          have htne : t.ID ≠ s.ID := by
            intro hid
            exact hsid (hid ▸ List.mem_map_of_mem Segment.ID ht)
          rw [aFind_aInsert_ne _ _ _ _ htne]
          exact hdisj t (List.mem_cons_of_mem s ht)
        rw [heq] at hne ⊢
        obtain ⟨pre, s', post, hsplit, hcf, hpost⟩ :=
          ih (used ++ [p]) (aInsert alloc s.ID p) hdisj' hnd hne
        exact ⟨s :: pre, s', post, by rw [hsplit, List.cons_append], hcf, hpost⟩

/-- C6: (a) in strict mode allocateSpillover stops at the first unplaceable
segment: when it reports any conflict, the conflict list is exactly one
ALLOCATE_FAIL for some segment s of the input, and neither s nor any later
segment is in the returned allocation map (ids assumed distinct, as the
store's primary keys are); (b) allocateFamily performs no store writes at
all and returns an error whenever the strategy run returns a non-empty
conflict list, so a partial allocation is never persisted for the family. -/
theorem C6_strict_stop_and_atomic_writes :
    (∀ (items : List poolItem) (rules : ProjectRules) (family : String) (segs : List Segment)
        (used : List Prfx),
      (segs.map Segment.ID).Nodup →
      (allocateSpillover items segs used rules family true).2 ≠ [] →
      ∃ pre s post, segs = pre ++ s :: post ∧
        (allocateSpillover items segs used rules family true).2 =
          [allocFailConflict s family] ∧
        ∀ t ∈ s :: post,
          aFind (allocateSpillover items segs used rules family true).1 t.ID = none) ∧
    (∀ (siteID : Int) (segs : List Segment) (pools : List Pool) (reserved : List Prfx)
        (rules : ProjectRules) (family : String),
      (poolItemsForFamily pools family).isEmpty = false →
      (allocFamilyCandidates segs family).isEmpty = false →
      (strategyAllocate (poolItemsForFamily pools family)
          (sortCandidates (allocFamilyCandidates segs family) family)
          (allocFamilyUsed segs family ++ reserved) rules family true).2 ≠ [] →
      (allocateFamily siteID segs pools reserved rules family).1 = [] ∧
        (allocateFamily siteID segs pools reserved rules family).2.isSome = true) := by
  constructor
  · intro items rules family segs used hnodup hne
    exact spillGo_strict_stop items rules family segs used []
      (fun t _ => rfl) hnodup hne
  · intro siteID segs pools reserved rules family hitems hcands hcf
    have hne : ((strategyAllocate (poolItemsForFamily pools family)
        (sortCandidates (allocFamilyCandidates segs family) family)
        (allocFamilyUsed segs family ++ reserved) rules family true).2).isEmpty = false := by
      rw [List.isEmpty_eq_false]
      exact hcf
    simp [allocateFamily, hitems, hcands, hne]

def c6item : poolItem := ⟨⟨1, 1, "S", .parsed ⟨32, 167772160, 30⟩, "ipv4", none, 0⟩,
  ⟨32, 167772160, 30⟩, ""⟩

def c6pool : Pool := ⟨1, 1, "S", .parsed ⟨32, 167772160, 30⟩, "ipv4", none, 0⟩

def c6seg : Segment := ⟨3, 1, "S", "r", 30, "big", none, some 24, none, none, none, false, none, none⟩

/-- C6 witness: a /24 request against a lone /30 pool fails; strict
allocateSpillover reports exactly that one ALLOCATE_FAIL and allocates
nothing, and allocateFamily performs no writes and errors. -/
theorem C6_strict_stop_witness :
    (∃ pre s post, [c6seg] = pre ++ s :: post ∧
      (allocateSpillover [c6item] [c6seg] [] defaultProjectRules "ipv4" true).2 =
        [allocFailConflict s "ipv4"] ∧
      ∀ t ∈ s :: post,
        aFind (allocateSpillover [c6item] [c6seg] [] defaultProjectRules "ipv4" true).1
          t.ID = none) ∧
    (allocateFamily 1 [c6seg] [c6pool] [] defaultProjectRules "ipv4").1 = [] ∧
    (allocateFamily 1 [c6seg] [c6pool] [] defaultProjectRules "ipv4").2.isSome = true := by
  constructor
  · exact C6_strict_stop_and_atomic_writes.1 [c6item] defaultProjectRules "ipv4" [c6seg] []
      (by decide) (by decide)
  · exact C6_strict_stop_and_atomic_writes.2 1 [c6seg] [c6pool] [] defaultProjectRules "ipv4"
      (by decide) (by decide) (by decide)

/-! ## Claim C2 -/

theorem planLockedStep_find_ne (family : String)
    (acc : List Prfx × List (Int × Prfx) × List Conflict) (t : Segment) (id : Int)
    (h : id ≠ t.ID) :
    aFind (planLockedStep family acc t).2.1 id = aFind acc.2.1 id := by
  unfold planLockedStep
  by_cases hl : (!t.Locked) = true
  · rw [if_pos hl]
  · rw [if_neg hl]
    cases hc : segmentCIDRByFamily t family with
    | none => simp only [hc]
    | some cv =>
      cases cv with
      | malformed raw => simp only [hc]
      | parsed p =>
        simp only [hc]
        exact aFind_aInsert_ne _ _ _ _ h

theorem planLockedFold_find_ne (family : String) :
    ∀ (l : List Segment) (acc : List Prfx × List (Int × Prfx) × List Conflict) (id : Int),
      id ∉ l.map Segment.ID →
      aFind (l.foldl (planLockedStep family) acc).2.1 id = aFind acc.2.1 id := by
  intro l
  induction l with
  | nil => intro acc id _; rfl
  | cons t rest ih =>
    intro acc id hid
    rw [List.map_cons] at hid
    have h1 : id ≠ t.ID := fun h => hid (by rw [h]; exact List.mem_cons_self _ _)
    have h2 : id ∉ rest.map Segment.ID := fun h => hid (List.mem_cons_of_mem _ h)
    rw [List.foldl_cons, ih _ id h2]
    exact planLockedStep_find_ne family acc t id h1

theorem planLockedStep_find_self (family : String)
    (acc : List Prfx × List (Int × Prfx) × List Conflict) (s : Segment) (p : Prfx)
    (hl : s.Locked = true) (hc : segmentCIDRByFamily s family = some (.parsed p)) :
    aFind (planLockedStep family acc s).2.1 s.ID = some p := by
  unfold planLockedStep
  rw [hl]
  simp only [Bool.not_true, Bool.false_eq_true, if_neg, hc]
  exact aFind_aInsert_self _ _ _

theorem planLockedPass_find (family : String) (l1 l2 : List Segment) (s : Segment) (p : Prfx)
    (hl : s.Locked = true) (hc : segmentCIDRByFamily s family = some (.parsed p))
    (hid : s.ID ∉ l2.map Segment.ID) :
    aFind (planLockedPass (l1 ++ s :: l2) family).2.1 s.ID = some p := by
  unfold planLockedPass
  rw [List.foldl_append, List.foldl_cons]
  rw [planLockedFold_find_ne family l2 _ s.ID hid]
  exact planLockedStep_find_self family _ s p hl hc

theorem spillGo_alloc_keys (items : List poolItem) (rules : ProjectRules) (family : String)
    (strict : Bool) :
    ∀ (segs : List Segment) (used : List Prfx) (alloc : List (Int × Prfx)) (kv : Int × Prfx),
      kv ∈ (spillGo items rules family strict segs used alloc).1 →
      kv ∈ alloc ∨ kv.1 ∈ segs.map Segment.ID := by
  intro segs
  induction segs with
  | nil =>
    intro used alloc kv hkv
    exact Or.inl hkv
  | cons s rest ih =>
    intro used alloc kv hkv
    simp only [spillGo] at hkv
    by_cases hw : (desiredPrefixByFamily s family == 0) = true
    · rw [if_pos hw] at hkv
      rcases ih used alloc kv hkv with h | h
      · exact Or.inl h
      · exact Or.inr (by rw [List.map_cons]; exact List.mem_cons_of_mem _ h)
    · rw [if_neg hw] at hkv
      rcases hf : findPoolAlloc (desiredPrefixByFamily s family) used
          (if rules.PoolStrategy == "tiered" then
            filterPoolsByTier items (segmentTierValue s) rules.PoolTierFallback
          else items) with _ | p
      · rw [hf] at hkv
        by_cases hs : strict = true
        · rw [if_pos hs] at hkv
          exact Or.inl hkv
        · rw [if_neg hs] at hkv
          rcases ih used alloc kv hkv with h | h
          · exact Or.inl h
          · exact Or.inr (by rw [List.map_cons]; exact List.mem_cons_of_mem _ h)
      · rw [hf] at hkv
        rcases ih (used ++ [p]) (aInsert alloc s.ID p) kv hkv with h | h
        · rcases aInsert_key_mem alloc s.ID p kv h with h2 | h2
          · exact Or.inl h2
          · exact Or.inr (by rw [List.map_cons, h2]; exact List.mem_cons_self _ _)
        · exact Or.inr (by rw [List.map_cons]; exact List.mem_cons_of_mem _ h)

theorem contigPool_shape (pool : poolItem) (rules : ProjectRules) (family : String) :
    ∀ (pending : List Segment) (used : List Prfx) (alloc : List (Int × Prfx)),
      (∀ kv ∈ (contigPool pool rules family pending used alloc).2.2,
        kv ∈ alloc ∨ kv.1 ∈ pending.map Segment.ID) ∧
      (∀ t ∈ (contigPool pool rules family pending used alloc).1, t ∈ pending) := by
  intro pending
  induction pending with
  | nil =>
    intro used alloc
    exact ⟨fun kv hkv => Or.inl hkv, fun t ht => ht⟩
  | cons s rest ih =>
    intro used alloc
    simp only [contigPool]
    by_cases hw : (desiredPrefixByFamily s family == 0) = true
    · rw [if_pos hw]
      refine ⟨fun kv hkv => ?_, fun t ht => List.mem_cons_of_mem _ ((ih used alloc).2 t ht)⟩
      rcases (ih used alloc).1 kv hkv with h | h
      · exact Or.inl h
      · exact Or.inr (by rw [List.map_cons]; exact List.mem_cons_of_mem _ h)
    · rw [if_neg hw]
      by_cases htier : (rules.PoolStrategy == "tiered" &&
          !(poolTierMatches pool (segmentTierValue s) rules.PoolTierFallback)) = true
      · rw [if_pos htier]
        refine ⟨fun kv hkv => ?_, fun t ht => ?_⟩
        · rcases (ih used alloc).1 kv hkv with h | h
          · exact Or.inl h
          · exact Or.inr (by rw [List.map_cons]; exact List.mem_cons_of_mem _ h)
        · rcases List.mem_cons.mp ht with h | h
          · rw [h]; exact List.mem_cons_self _ _
          · exact List.mem_cons_of_mem _ ((ih used alloc).2 t h)
      · rw [if_neg htier]
        rcases hf : allocateInPool pool.pfx (desiredPrefixByFamily s family) used with _ | p
        · refine ⟨fun kv hkv => ?_, fun t ht => ?_⟩
          · rcases (ih used alloc).1 kv hkv with h | h
            · exact Or.inl h
            · exact Or.inr (by rw [List.map_cons]; exact List.mem_cons_of_mem _ h)
          · rcases List.mem_cons.mp ht with h | h
            · rw [h]; exact List.mem_cons_self _ _
            · exact List.mem_cons_of_mem _ ((ih used alloc).2 t h)
        · refine ⟨fun kv hkv => ?_,
            fun t ht => List.mem_cons_of_mem _ ((ih (used ++ [p]) (aInsert alloc s.ID p)).2 t ht)⟩
          rcases (ih (used ++ [p]) (aInsert alloc s.ID p)).1 kv hkv with h | h
          · rcases aInsert_key_mem alloc s.ID p kv h with h2 | h2
            · exact Or.inl h2
            · exact Or.inr (by rw [List.map_cons, h2]; exact List.mem_cons_self _ _)
          · exact Or.inr (by rw [List.map_cons]; exact List.mem_cons_of_mem _ h)

theorem contigGo_alloc_keys (rules : ProjectRules) (family : String) :
    ∀ (pools : List poolItem) (pending : List Segment) (used : List Prfx)
      (alloc : List (Int × Prfx)) (kv : Int × Prfx),
      kv ∈ (contigGo rules family pools pending used alloc).2 →
      kv ∈ alloc ∨ kv.1 ∈ pending.map Segment.ID := by
  intro pools
  induction pools with
  | nil =>
    intro pending used alloc kv hkv
    exact Or.inl hkv
  | cons pool pools ih =>
    intro pending used alloc kv hkv
    simp only [contigGo] at hkv
    by_cases hp : pending.isEmpty = true
    · rw [if_pos hp] at hkv
      exact Or.inl hkv
    · rw [if_neg hp] at hkv
      rcases ih _ _ _ kv hkv with h | h
      · rcases (contigPool_shape pool rules family pending used alloc).1 kv h with h2 | h2
        · exact Or.inl h2
        · exact Or.inr h2
      · obtain ⟨t, ht, hid⟩ := List.mem_map.mp h
        have := (contigPool_shape pool rules family pending used alloc).2 t ht
        exact Or.inr (by rw [← hid]; exact List.mem_map_of_mem _ this)

theorem planCandFold_mem (family : String) :
    ∀ (l : List Segment) (acc : List Segment × List Conflict) (t : Segment),
      t ∈ (l.foldl (planCandStep family) acc).1 →
      t ∈ acc.1 ∨ (t ∈ l ∧ t.Locked = false) := by
  intro l
  induction l with
  | nil =>
    intro acc t ht
    exact Or.inl ht
  | cons s rest ih =>
    intro acc t ht
    rw [List.foldl_cons] at ht
    rcases ih _ t ht with h | h
    · unfold planCandStep at h
      by_cases hl : s.Locked = true
      · rw [if_pos hl] at h
        exact Or.inl h
      · rw [if_neg hl] at h
        by_cases hw : (desiredPrefixByFamily s family == 0) = true
        · rw [if_pos hw] at h
          exact Or.inl h
        · rw [if_neg hw] at h
          rcases List.mem_append.mp h with h2 | h2
          · exact Or.inl h2
          · rw [List.mem_singleton] at h2
            subst h2
            exact Or.inr ⟨List.mem_cons_self _ _, Bool.eq_false_iff.mpr hl⟩
    · exact Or.inr ⟨List.mem_cons_of_mem _ h.1, h.2⟩

theorem foldInsert_find_ne :
    ∀ (alloc plan : List (Int × Prfx)) (id : Int),
      (∀ kv ∈ alloc, kv.1 ≠ id) →
      aFind (alloc.foldl (fun pl kv => aInsert pl kv.1 kv.2) plan) id = aFind plan id := by
  intro alloc
  induction alloc with
  | nil => intro plan id _; rfl
  | cons kv rest ih =>
    intro plan id hkv
    rw [List.foldl_cons, ih _ id (fun kv2 h2 => hkv kv2 (List.mem_cons_of_mem _ h2))]
    exact aFind_aInsert_ne _ _ _ _ (fun h => hkv kv (List.mem_cons_self _ _) h.symm)

/-- C2 (amended): for every locked segment s whose assigned CIDR for the
family parses as prefix p, provided the pool catalog yields at least one
pool item for the family (otherwise planAllocateFamily returns early with
an empty plan — the counterexample) and segment ids are distinct,
planAllocateFamily maps s's id to exactly p, and the applyPlan copy of s
still carries exactly that prefix in the corresponding CIDR column; the
allocation merge never reassigns a locked id. -/
theorem C2_locked_preserved (segs : List Segment) (pools : List Pool) (reserved : List Prfx)
    (rules : ProjectRules) (family : String) (s : Segment) (p : Prfx)
    (hitems : poolItemsForFamily pools family ≠ [])
    (hnodup : (segs.map Segment.ID).Nodup)
    (hmem : s ∈ segs) (hlock : s.Locked = true)
    (hcidr : segmentCIDRByFamily s family = some (.parsed p)) :
    aFind (planAllocateFamily segs pools reserved rules family).1 s.ID = some p ∧
    (∀ pv6 : List (Int × Prfx),
      (applyPlanSeg (planAllocateFamily segs pools reserved rules family).1 pv6 s).CIDR =
        some (.parsed p)) ∧
    (∀ pv4 : List (Int × Prfx),
      (applyPlanSeg pv4 (planAllocateFamily segs pools reserved rules family).1 s).CIDRV6 =
        some (.parsed p)) := by
  have hempty : (poolItemsForFamily pools family).isEmpty = false := by
    rw [List.isEmpty_eq_false]
    exact hitems
  have hkeys : ∀ kv ∈ (strategyAllocate (poolItemsForFamily pools family)
      (sortCandidates (planCandidatePass segs family).1 family)
      ((planLockedPass segs family).1 ++ reserved) rules family false).1, kv.1 ≠ s.ID := by
    intro kv hkv hid
    have hcand : kv.1 ∈ (sortCandidates (planCandidatePass segs family).1 family).map
        Segment.ID := by
      unfold strategyAllocate at hkv
      by_cases hc1 : (rules.PoolStrategy == "contiguous") = true
      · rw [if_pos hc1] at hkv
        rcases contigGo_alloc_keys rules family _ _ _ _ kv hkv with h | h
        · simp at h
        · exact h
      · rw [if_neg hc1] at hkv
        by_cases hc2 : (rules.PoolStrategy == "tiered") = true
        · rw [if_pos hc2] at hkv
          rcases spillGo_alloc_keys _ rules family false _ _ _ kv hkv with h | h
          · simp at h
          · exact h
        · rw [if_neg hc2] at hkv
          rcases spillGo_alloc_keys _ rules family false _ _ _ kv hkv with h | h
          · simp at h
          · exact h
    obtain ⟨t, ht, htid⟩ := List.mem_map.mp hcand
    unfold sortCandidates at ht
    rw [List.mem_insertionSort] at ht
    rcases planCandFold_mem family segs ([], []) t ht with h | h
    · simp at h
    · have hts : t = s := List.inj_on_of_nodup_map hnodup h.1 hmem (by rw [htid, hid])
      rw [hts] at h
      rw [hlock] at h
      exact absurd h.2 (by simp)
  obtain ⟨l1, l2, hsplit⟩ := List.append_of_mem hmem
  have hid2 : s.ID ∉ l2.map Segment.ID := by
    rw [hsplit] at hnodup
    simp only [List.map_append, List.map_cons] at hnodup
    have h2 := (List.nodup_append.mp hnodup).2.1
    rw [List.nodup_cons] at h2
    exact h2.1
  have hlocked : aFind (planLockedPass segs family).2.1 s.ID = some p := by
    rw [hsplit]
    exact planLockedPass_find family l1 l2 s p hlock hcidr hid2
  have hfind : aFind (planAllocateFamily segs pools reserved rules family).1 s.ID = some p := by
    simp only [planAllocateFamily, hempty, Bool.false_eq_true, if_false]
    exact (foldInsert_find_ne _ _ _ hkeys).trans hlocked
  refine ⟨hfind, ?_, ?_⟩
  · intro pv6
    cases h6 : aFind pv6 s.ID <;> simp [applyPlanSeg, hfind, h6]
  · intro pv4
    cases h4 : aFind pv4 s.ID <;> simp [applyPlanSeg, hfind, h4]

def c2seg : Segment :=
  ⟨1, 1, "S", "r", 10, "locked1", none, none, some (.parsed ⟨32, 167772160, 24⟩), none, none,
    true, none, none⟩

def c2pool : Pool := ⟨1, 1, "S", .parsed ⟨32, 167772160, 16⟩, "ipv4", none, 0⟩

/-- C2 counterexample: a locked segment with a parsed v4 CIDR, but no pools
for the family: planAllocateFamily returns early with an empty plan (only a
POOL_MISSING conflict), so the plan does not map the locked id to its
prefix, and applyPlan clears the planned copy's CIDR. -/
theorem C2_counterexample :
    c2seg.Locked = true ∧
    segmentCIDRByFamily c2seg "ipv4" = some (.parsed ⟨32, 167772160, 24⟩) ∧
    aFind (planAllocateFamily [c2seg] [] [] defaultProjectRules "ipv4").1 c2seg.ID = none ∧
    (applyPlanSeg (planAllocateFamily [c2seg] [] [] defaultProjectRules "ipv4").1 []
      c2seg).CIDR = none := by
  refine ⟨by decide, by decide, by decide, by decide⟩

/-- C2 witness: the amended theorem applied to a locked 10.0.0.0/24 segment
with a 10.0.0.0/16 pool present. -/
theorem C2_locked_witness :
    aFind (planAllocateFamily [c2seg] [c2pool] [] defaultProjectRules "ipv4").1 c2seg.ID =
      some ⟨32, 167772160, 24⟩ ∧
    (∀ pv6 : List (Int × Prfx),
      (applyPlanSeg (planAllocateFamily [c2seg] [c2pool] [] defaultProjectRules "ipv4").1 pv6
        c2seg).CIDR = some (.parsed ⟨32, 167772160, 24⟩)) ∧
    (∀ pv4 : List (Int × Prfx),
      (applyPlanSeg pv4 (planAllocateFamily [c2seg] [c2pool] [] defaultProjectRules "ipv4").1
        c2seg).CIDRV6 = some (.parsed ⟨32, 167772160, 24⟩)) :=
  C2_locked_preserved [c2seg] [c2pool] [] defaultProjectRules "ipv4" c2seg
    ⟨32, 167772160, 24⟩ (by decide) (by decide) (by decide) (by decide) (by decide)

/-! ## Claim C4 -/

theorem mergeLoopBig_spec (poolStart poolEnd : Int) :
    ∀ (rest : List bigRange) (last : bigRange),
      (poolStart ≤ last.start ∧ last.start ≤ last.endv ∧ last.endv ≤ poolEnd) →
      (∀ r ∈ rest, poolStart ≤ r.start ∧ r.start ≤ r.endv ∧ r.endv ≤ poolEnd) →
      rest.Pairwise (fun a b => a.start ≤ b.start) →
      (∀ r ∈ rest, last.start ≤ r.start) →
      (mergeLoopBig last rest).Chain' (fun a b => a.endv + 1 < b.start) ∧
      (∀ r ∈ mergeLoopBig last rest,
        poolStart ≤ r.start ∧ r.start ≤ r.endv ∧ r.endv ≤ poolEnd) ∧
      ∃ hd tl, mergeLoopBig last rest = hd :: tl ∧ hd.start = last.start := by
  intro rest
  induction rest with
  | nil =>
    intro last hP _ _ _
    refine ⟨List.chain'_singleton _, ?_, last, [], rfl, rfl⟩
    intro r hr
    have hrl : r = last := by simpa [mergeLoopBig] using hr
    rw [hrl]
    exact hP
  | cons r rs ih =>
    intro last hP hall hpair hge
    have hpairtl := (List.pairwise_cons.mp hpair).2
    have hpairhd := (List.pairwise_cons.mp hpair).1
    by_cases hm : r.start ≤ last.endv + 1
    · have heq : mergeLoopBig last (r :: rs) =
          mergeLoopBig ⟨last.start, if last.endv < r.endv then r.endv else last.endv⟩ rs := by
        simp [mergeLoopBig, hm]
      have hrP := hall r (List.mem_cons_self _ _)
      have hP' : poolStart ≤ last.start ∧
          last.start ≤ (if last.endv < r.endv then r.endv else last.endv) ∧
          (if last.endv < r.endv then r.endv else last.endv) ≤ poolEnd := by
        by_cases hc : last.endv < r.endv
        · rw [if_pos hc]
          exact ⟨hP.1, le_trans hP.2.1 (le_of_lt hc), hrP.2.2⟩
        · rw [if_neg hc]
          exact hP
      rw [heq]
      obtain ⟨hchain, hmem, hd, tl, hhd, hhds⟩ :=
        ih ⟨last.start, if last.endv < r.endv then r.endv else last.endv⟩ hP'
          (fun r' hr' => hall r' (List.mem_cons_of_mem _ hr')) hpairtl
          (fun r' hr' => hge r' (List.mem_cons_of_mem _ hr'))
      exact ⟨hchain, hmem, hd, tl, hhd, hhds⟩
    · have heq : mergeLoopBig last (r :: rs) = last :: mergeLoopBig r rs := by
        simp [mergeLoopBig, hm]
      obtain ⟨hchain, hmem, hd, tl, hhd, hhds⟩ := ih r (hall r (List.mem_cons_self _ _))
        (fun r' hr' => hall r' (List.mem_cons_of_mem _ hr')) hpairtl hpairhd
      rw [heq, hhd]
      refine ⟨List.chain'_cons.mpr ⟨?_, by rw [← hhd]; exact hchain⟩, ?_, last, hd :: tl,
        rfl, rfl⟩
      · rw [hhds]
        omega
      · intro r' hr'
        rcases List.mem_cons.mp hr' with h | h
        · rw [h]
          exact hP
        · exact hmem r' (by rw [hhd]; exact h)

theorem mergeLoop4_spec (poolStart poolEnd : Nat) :
    ∀ (rest : List ipv4Range) (last : ipv4Range),
      (poolStart ≤ last.start ∧ last.start ≤ last.endv ∧ last.endv ≤ poolEnd) →
      (∀ r ∈ rest, poolStart ≤ r.start ∧ r.start ≤ r.endv ∧ r.endv ≤ poolEnd) →
      rest.Pairwise (fun a b => a.start ≤ b.start) →
      (∀ r ∈ rest, last.start ≤ r.start) →
      (mergeLoop4 last rest).Chain' (fun a b => a.endv + 1 < b.start) ∧
      (∀ r ∈ mergeLoop4 last rest,
        poolStart ≤ r.start ∧ r.start ≤ r.endv ∧ r.endv ≤ poolEnd) ∧
      ∃ hd tl, mergeLoop4 last rest = hd :: tl ∧ hd.start = last.start := by
  intro rest
  induction rest with
  | nil =>
    intro last hP _ _ _
    refine ⟨List.chain'_singleton _, ?_, last, [], rfl, rfl⟩
    intro r hr
    have hrl : r = last := by simpa [mergeLoop4] using hr
    rw [hrl]
    exact hP
  | cons r rs ih =>
    intro last hP hall hpair hge
    have hpairtl := (List.pairwise_cons.mp hpair).2
    have hpairhd := (List.pairwise_cons.mp hpair).1
    by_cases hm : r.start ≤ last.endv + 1
    · have heq : mergeLoop4 last (r :: rs) =
          mergeLoop4 ⟨last.start, if last.endv < r.endv then r.endv else last.endv⟩ rs := by
        simp [mergeLoop4, hm]
      have hrP := hall r (List.mem_cons_self _ _)
      have hP' : poolStart ≤ last.start ∧
          last.start ≤ (if last.endv < r.endv then r.endv else last.endv) ∧
          (if last.endv < r.endv then r.endv else last.endv) ≤ poolEnd := by
        by_cases hc : last.endv < r.endv
        · rw [if_pos hc]
          exact ⟨hP.1, le_trans hP.2.1 (le_of_lt hc), hrP.2.2⟩
        · rw [if_neg hc]
          exact hP
      rw [heq]
      obtain ⟨hchain, hmem, hd, tl, hhd, hhds⟩ :=
        ih ⟨last.start, if last.endv < r.endv then r.endv else last.endv⟩ hP'
          (fun r' hr' => hall r' (List.mem_cons_of_mem _ hr')) hpairtl
          (fun r' hr' => hge r' (List.mem_cons_of_mem _ hr'))
      exact ⟨hchain, hmem, hd, tl, hhd, hhds⟩
    · have heq : mergeLoop4 last (r :: rs) = last :: mergeLoop4 r rs := by
        simp [mergeLoop4, hm]
      obtain ⟨hchain, hmem, hd, tl, hhd, hhds⟩ := ih r (hall r (List.mem_cons_self _ _))
        (fun r' hr' => hall r' (List.mem_cons_of_mem _ hr')) hpairtl hpairhd
      rw [heq, hhd]
      refine ⟨List.chain'_cons.mpr ⟨?_, by rw [← hhd]; exact hchain⟩, ?_, last, hd :: tl,
        rfl, rfl⟩
      · rw [hhds]
        omega
      · intro r' hr'
        rcases List.mem_cons.mp hr' with h | h
        · rw [h]
          exact hP
        · exact hmem r' (by rw [hhd]; exact h)

theorem ipv4RangeLess_iff (a b : ipv4Range) :
    ipv4RangeLess a b = true ↔ a.start < b.start ∨ (a.start = b.start ∧ a.endv < b.endv) := by
  unfold ipv4RangeLess
  by_cases h : (a.start == b.start) = true
  · have he : a.start = b.start := by simpa using h
    rw [if_pos h]
    simp [he]
  · have hne : a.start ≠ b.start := by simpa using h
    rw [if_neg h]
    simp [hne]

theorem ipv4RangeLess_false_le (a b : ipv4Range) (h : ipv4RangeLess b a = false) :
    a.start ≤ b.start := by
  have := (ipv4RangeLess_iff b a).not.mp (by rw [h]; simp)
  push_neg at this
  omega

theorem mergeBigRanges_sorted_spec (poolStart poolEnd : Int) (out : List bigRange)
    (hmem : ∀ r ∈ out, poolStart ≤ r.start ∧ r.start ≤ r.endv ∧ r.endv ≤ poolEnd) :
    (mergeBigRanges (List.insertionSort (fun a b => a.start ≤ b.start) out)).Chain'
      (fun a b => a.endv + 1 < b.start) ∧
    ∀ r ∈ mergeBigRanges (List.insertionSort (fun a b => a.start ≤ b.start) out),
      poolStart ≤ r.start ∧ r.start ≤ r.endv ∧ r.endv ≤ poolEnd := by
  have hsorted := @List.sorted_insertionSort bigRange (fun a b => a.start ≤ b.start)
    (fun a b => Int.decLe a.start b.start)
    ⟨fun a b => le_total a.start b.start⟩
    ⟨fun a b c hab hbc => le_trans hab hbc⟩ out
  cases hs : List.insertionSort (fun a b : bigRange => a.start ≤ b.start) out with
  | nil =>
    exact ⟨List.chain'_nil, by intro r hr; simp [mergeBigRanges] at hr⟩
  | cons hd tl =>
    rw [hs] at hsorted
    have hmemS : ∀ r, r ∈ hd :: tl → poolStart ≤ r.start ∧ r.start ≤ r.endv ∧
        r.endv ≤ poolEnd := by
      intro r hr
      apply hmem
      rw [← hs] at hr
      exact (List.mem_insertionSort _).mp hr
    have hspec := mergeLoopBig_spec poolStart poolEnd tl hd
      (hmemS hd (List.mem_cons_self _ _))
      (fun r hr => hmemS r (List.mem_cons_of_mem _ hr))
      (List.pairwise_cons.mp hsorted).2
      (List.pairwise_cons.mp hsorted).1
    exact ⟨hspec.1, hspec.2.1⟩

theorem mergeRanges_sorted_spec (poolStart poolEnd : Nat) (out : List ipv4Range)
    (hmem : ∀ r ∈ out, poolStart ≤ r.start ∧ r.start ≤ r.endv ∧ r.endv ≤ poolEnd) :
    (mergeRanges (List.insertionSort (fun a b => ipv4RangeLess b a = false) out)).Chain'
      (fun a b => a.endv + 1 < b.start) ∧
    ∀ r ∈ mergeRanges (List.insertionSort (fun a b => ipv4RangeLess b a = false) out),
      poolStart ≤ r.start ∧ r.start ≤ r.endv ∧ r.endv ≤ poolEnd := by
  have hsorted := @List.sorted_insertionSort ipv4Range
    (fun a b => ipv4RangeLess b a = false)
    (fun a b => instDecidableEqBool (ipv4RangeLess b a) false)
    ⟨fun a b => by
      by_cases h : ipv4RangeLess b a = true
      · right
        rcases (ipv4RangeLess_iff b a).mp h with h2 | h2
        · rw [Bool.eq_false_iff]
          intro h3
          rcases (ipv4RangeLess_iff a b).mp h3 with h4 | h4 <;> omega
        · rw [Bool.eq_false_iff]
          intro h3
          rcases (ipv4RangeLess_iff a b).mp h3 with h4 | h4 <;> omega
      · exact Or.inl (Bool.eq_false_iff.mpr h)⟩
    ⟨fun a b c hab hbc => by
      have h1 := (ipv4RangeLess_iff b a).not.mp (by rw [hab]; simp)
      have h2 := (ipv4RangeLess_iff c b).not.mp (by rw [hbc]; simp)
      push_neg at h1 h2
      rw [Bool.eq_false_iff]
      intro h3
      rcases (ipv4RangeLess_iff c a).mp h3 with h4 | h4 <;> omega⟩ out
  cases hs : List.insertionSort (fun a b : ipv4Range => ipv4RangeLess b a = false) out with
  | nil =>
    exact ⟨List.chain'_nil, by intro r hr; simp [mergeRanges] at hr⟩
  | cons hd tl =>
    rw [hs] at hsorted
    have hsorted2 : (hd :: tl).Pairwise (fun a b : ipv4Range => a.start ≤ b.start) :=
      hsorted.imp (fun h => ipv4RangeLess_false_le _ _ h)
    have hmemS : ∀ r, r ∈ hd :: tl → poolStart ≤ r.start ∧ r.start ≤ r.endv ∧
        r.endv ≤ poolEnd := by
      intro r hr
      apply hmem
      rw [← hs] at hr
      exact (List.mem_insertionSort _).mp hr
    have hspec := mergeLoop4_spec poolStart poolEnd tl hd
      (hmemS hd (List.mem_cons_self _ _))
      (fun r hr => hmemS r (List.mem_cons_of_mem _ hr))
      (List.pairwise_cons.mp hsorted2).2
      (List.pairwise_cons.mp hsorted2).1
    exact ⟨hspec.1, hspec.2.1⟩

theorem prefixRangeWithin_bounds (pool p : Prfx) (r : ipv4Range)
    (h : prefixRangeWithin pool p = some r) :
    pool.maskedAddr ≤ r.start ∧ r.start ≤ r.endv ∧
      r.endv ≤ pool.maskedAddr + (2 ^ (32 - pool.bits) - 1) := by
  simp only [prefixRangeWithin] at h
  by_cases hg : (decide (p.maskedAddr + (2 ^ (32 - p.bits) - 1) < pool.maskedAddr) ||
      decide (pool.maskedAddr + (2 ^ (32 - pool.bits) - 1) < p.maskedAddr)) = true
  · rw [if_pos hg] at h
    exact Option.noConfusion h
  · rw [if_neg hg] at h
    simp only [Bool.or_eq_true, decide_eq_true_eq] at hg
    push_neg at hg
    rw [Option.some_inj] at h
    rw [← h]
    refine ⟨le_max_right _ _, ?_, min_le_right _ _⟩
    apply max_le
    · apply le_min
      · omega
      · exact hg.2
    · apply le_min
      · exact hg.1
      · omega

theorem buildUsedRangesBig_spec (pool : Prfx) (used : List Prfx) :
    (buildUsedRangesBig pool used).Chain' (fun a b => a.endv + 1 < b.start) ∧
    ∀ r ∈ buildUsedRangesBig pool used,
      (pool.addr : Int) ≤ r.start ∧ r.start ≤ r.endv ∧
        r.endv ≤ (pool.addr : Int) + prefixSizeZ pool - 1 := by
  by_cases he : used.isEmpty = true
  · have heq : buildUsedRangesBig pool used = [] := by
      unfold buildUsedRangesBig
      rw [if_pos he]
    rw [heq]
    exact ⟨List.chain'_nil, by intro r hr; simp at hr⟩
  · have heq : buildUsedRangesBig pool used =
        mergeBigRanges (List.insertionSort (fun a b => a.start ≤ b.start)
          (used.filterMap fun q =>
            if (q.masked.addr : Int) + prefixSizeZ q.masked - 1 < (pool.addr : Int) ||
                (pool.addr : Int) + prefixSizeZ pool - 1 < (q.masked.addr : Int) then none
            else some ⟨max ((q.masked.addr : Int)) ((pool.addr : Int)),
              min ((q.masked.addr : Int) + prefixSizeZ q.masked - 1)
                ((pool.addr : Int) + prefixSizeZ pool - 1)⟩)) := by
      unfold buildUsedRangesBig
      rw [if_neg he]
    rw [heq]
    apply mergeBigRanges_sorted_spec
    intro r hr
    rw [List.mem_filterMap] at hr
    obtain ⟨q, _, hrq⟩ := hr
    by_cases hg : (decide ((q.masked.addr : Int) + prefixSizeZ q.masked - 1 < (pool.addr : Int)) ||
        decide ((pool.addr : Int) + prefixSizeZ pool - 1 < (q.masked.addr : Int))) = true
    · rw [if_pos hg] at hrq
      exact Option.noConfusion hrq
    · rw [if_neg hg] at hrq
      simp only [Bool.or_eq_true, decide_eq_true_eq] at hg
      push_neg at hg
      have hq1 : (1:Int) ≤ prefixSizeZ q.masked := by
        have := pow_pos (by norm_num : (0:Int) < 2) (q.masked.w - q.masked.bits)
        unfold prefixSizeZ Prfx.size
        push_cast
        omega
      have hp1 : (1:Int) ≤ prefixSizeZ pool := by
        have := pow_pos (by norm_num : (0:Int) < 2) (pool.w - pool.bits)
        unfold prefixSizeZ Prfx.size
        push_cast
        omega
      rw [Option.some_inj] at hrq
      rw [← hrq]
      refine ⟨le_max_right _ _, ?_, min_le_right _ _⟩
      apply max_le
      · apply le_min
        · omega
        · exact hg.2
      · apply le_min
        · exact hg.1
        · omega

theorem buildUsedRanges_spec (pool : Prfx) (segs : List Segment) (reserved : List Prfx) :
    (buildUsedRanges pool segs reserved).Chain' (fun a b => a.endv + 1 < b.start) ∧
    ∀ r ∈ buildUsedRanges pool segs reserved,
      pool.maskedAddr ≤ r.start ∧ r.start ≤ r.endv ∧
        r.endv ≤ pool.maskedAddr + (2 ^ (32 - pool.bits) - 1) := by
  have heq : buildUsedRanges pool segs reserved =
      mergeRanges (List.insertionSort (fun a b => ipv4RangeLess b a = false)
        ((segs.filterMap fun s =>
          match s.CIDR with
          | some (.parsed p) => if p.w == 32 then prefixRangeWithin pool p else none
          | _ => none) ++ reserved.filterMap fun r =>
            if r.w == 32 then prefixRangeWithin pool r else none)) := rfl
  rw [heq]
  apply mergeRanges_sorted_spec
  intro r hr
  rcases List.mem_append.mp hr with h | h
  · rw [List.mem_filterMap] at h
    obtain ⟨s, _, hsr⟩ := h
    cases hc : s.CIDR with
    | none =>
      rw [hc] at hsr
      exact Option.noConfusion (show (none : Option ipv4Range) = some r from hsr)
    | some cv =>
      cases cv with
      | malformed raw =>
        rw [hc] at hsr
        exact Option.noConfusion (show (none : Option ipv4Range) = some r from hsr)
      | parsed p =>
        rw [hc] at hsr
        have hsr2 : (if (p.w == 32) = true then prefixRangeWithin pool p else none) =
            some r := hsr
        by_cases hw : (p.w == 32) = true
        · rw [if_pos hw] at hsr2
          exact prefixRangeWithin_bounds pool p r hsr2
        · rw [if_neg hw] at hsr2
          exact Option.noConfusion hsr2
  · rw [List.mem_filterMap] at h
    obtain ⟨q, _, hqr⟩ := h
    by_cases hw : (q.w == 32) = true
    · rw [if_pos hw] at hqr
      exact prefixRangeWithin_bounds pool q r hqr
    · rw [if_neg hw] at hqr
      exact Option.noConfusion hqr


/-! ## Claim C7: amended rule -/

theorem hostsToPrefixAux_pos (need : Int) : ∀ t : Nat, 1 ≤ hostsToPrefixAux need t := by
  intro t
  induction t with
  | zero => simp [hostsToPrefixAux]
  | succ t ih =>
    unfold hostsToPrefixAux
    by_cases hc : need ≤ (2:Int) ^ (32 - (t + 1))
    · rw [if_pos hc]
      omega
    · rw [if_neg hc]
      exact ih

theorem hostsToPrefixIPv4_pos (h : Int) : 1 ≤ hostsToPrefixIPv4 h :=
  hostsToPrefixAux_pos (h + 3) 32

theorem fragPoolV4_kind (segs : List Segment) (rV4 : Int → List Prfx) (siteID : Int)
    (pool : Prfx) (c : Conflict) (hc : c ∈ fragPoolV4 segs rV4 siteID pool) :
    c.Kind = "POOL_FRAGMENTATION" ∨ c.Kind = "POOL_GAP" := by
  simp only [fragPoolV4] at hc
  by_cases hw : (!(pool.w == 32)) = true
  · rw [if_pos hw] at hc
    exact absurd hc (List.not_mem_nil c)
  · rw [if_neg hw] at hc
    by_cases hg : (freeRanges pool (buildUsedRanges pool (segmentsBySite segs siteID)
        (rV4 siteID))).isEmpty = true
    · rw [if_pos hg] at hc
      exact absurd hc (List.not_mem_nil c)
    · rw [if_neg hg] at hc
      rcases List.mem_cons.mp hc with h | h
      · left
        rw [h]
      · right
        rw [List.mem_map] at h
        obtain ⟨p, _, hp⟩ := h
        rw [← hp]

theorem gapHintsV6_kind (pool : Prfx) (unitP : Int) :
    ∀ (gaps : List bigRange) (limit : Nat) (c : Conflict),
      c ∈ gapHintsV6 pool unitP limit gaps → c.Kind = "POOL_GAP_V6" := by
  intro gaps
  induction gaps with
  | nil =>
    intro limit c hc
    cases limit <;> simp [gapHintsV6] at hc
  | cons g gs ih =>
    intro limit c hc
    cases limit with
    | zero => simp [gapHintsV6] at hc
    | succ l =>
      simp only [gapHintsV6, List.mem_append] at hc
      rcases hc with hc | hc
      · rw [List.mem_map] at hc
        obtain ⟨p, _, hp⟩ := hc
        rw [← hp]
      · exact ih _ _ hc

theorem fragPoolV6_kind (segs : List Segment) (rV6 : Int → List Prfx) (siteID : Int)
    (pool : Prfx) (c : Conflict) (hc : c ∈ fragPoolV6 segs rV6 siteID pool) :
    c.Kind = "POOL_FRAGMENTATION_V6" ∨ c.Kind = "POOL_GAP_V6" := by
  simp only [fragPoolV6] at hc
  by_cases hw : (!(pool.w == 128)) = true
  · rw [if_pos hw] at hc
    exact absurd hc (List.not_mem_nil c)
  · rw [if_neg hw] at hc
    by_cases hg : (freeRangesBig pool (buildUsedRangesBig pool
        (collectUsedPrefixesV6 (segmentsBySite segs siteID) (rV6 siteID)))).isEmpty = true
    · rw [if_pos hg] at hc
      exact absurd hc (List.not_mem_nil c)
    · rw [if_neg hg] at hc
      rcases List.mem_cons.mp hc with h | h
      · left
        rw [h]
      · right
        exact gapHintsV6_kind _ _ _ _ _ h

theorem oversizedV6_kind (segs : List Segment) (rules : ProjectRules) (c : Conflict)
    (hc : c ∈ oversizedV6 segs rules) : c.Kind = "OVERSIZED_V6" := by
  unfold oversizedV6 at hc
  rw [List.mem_filterMap] at hc
  obtain ⟨s, _, hs⟩ := hc
  cases hh : s.PrefixLenV6 with
  | none =>
    rw [hh] at hs
    exact Option.noConfusion (show (none : Option Conflict) = some c from hs)
  | some req =>
    cases hcd : s.CIDRV6 with
    | none =>
      rw [hh, hcd] at hs
      exact Option.noConfusion (show (none : Option Conflict) = some c from hs)
    | some cv =>
      cases cv with
      | malformed raw =>
        rw [hh, hcd] at hs
        exact Option.noConfusion (show (none : Option Conflict) = some c from hs)
      | parsed p =>
        rw [hh, hcd] at hs
        have hs2 : (if (!(p.w == 128)) = true then none
            else if (req ≤ 0 || 128 < req) = true then none
            else if req ≤ (p.bits : Int) then none
            else if rules.OversizeThreshold ≤
                percentBig (prefixSizeZ p - (2:Int) ^ (128 - req.toNat)) (prefixSizeZ p) then
              some ⟨"OVERSIZED_V6", "segment " ++ s.Name ++ " site=" ++ s.Site ++ " " ++
                p.string ++ " exceeds v6 request by " ++
                itoa (percentBig (prefixSizeZ p - (2:Int) ^ (128 - req.toNat))
                  (prefixSizeZ p)) ++ "% (need /" ++ itoa req ++ ")",
                statusLevel.warning.Label⟩
            else none) = some c := hs
        by_cases h1 : (!(p.w == 128)) = true
        · rw [if_pos h1] at hs2
          exact Option.noConfusion hs2
        · rw [if_neg h1] at hs2
          by_cases h2 : (req ≤ 0 || 128 < req) = true
          · rw [if_pos h2] at hs2
            exact Option.noConfusion hs2
          · rw [if_neg h2] at hs2
            by_cases h3 : req ≤ (p.bits : Int)
            · rw [if_pos h3] at hs2
              exact Option.noConfusion hs2
            · rw [if_neg h3] at hs2
              by_cases h4 : rules.OversizeThreshold ≤
                  percentBig (prefixSizeZ p - (2:Int) ^ (128 - req.toNat)) (prefixSizeZ p)
              · rw [if_pos h4] at hs2
                rw [← Option.some_inj.mp hs2]
              · rw [if_neg h4] at hs2
                exact Option.noConfusion hs2

theorem oversizedV4One_cases (rules : ProjectRules) (s : Segment) :
    (∀ c, oversizedV4One rules s = some c → c.Kind = "OVERSIZED") ∧
    ((oversizedV4One rules s).isSome = true ↔ oversizedCondV4 rules s) := by
  cases hh : s.Hosts with
  | none =>
    have he : oversizedV4One rules s = none := by
      unfold oversizedV4One
      rw [hh]
    rw [he]
    refine ⟨fun c hc => Option.noConfusion hc, ?_⟩
    simp only [Option.isSome_none, Bool.false_eq_true, false_iff]
    rintro ⟨h0, p, hh2, _⟩
    rw [hh] at hh2
    exact Option.noConfusion hh2
  | some h0 =>
    cases hcd : s.CIDR with
    | none =>
      have he : oversizedV4One rules s = none := by
        unfold oversizedV4One
        rw [hh, hcd]
      rw [he]
      refine ⟨fun c hc => Option.noConfusion hc, ?_⟩
      simp only [Option.isSome_none, Bool.false_eq_true, false_iff]
      rintro ⟨h1, p, _, hc2, _⟩
      rw [hcd] at hc2
      exact Option.noConfusion hc2
    | some cv =>
      cases cv with
      | malformed raw =>
        have he : oversizedV4One rules s = none := by
          unfold oversizedV4One
          rw [hh, hcd]
        rw [he]
        refine ⟨fun c hc => Option.noConfusion hc, ?_⟩
        simp only [Option.isSome_none, Bool.false_eq_true, false_iff]
        rintro ⟨h1, p, _, hc2, _⟩
        rw [hcd] at hc2
        simp at hc2
      | parsed p =>
        have hreq := hostsToPrefixIPv4_pos h0
        have hbody : oversizedV4One rules s =
            (if (!(p.w == 32)) = true then none
            else if hostsToPrefixIPv4 h0 ≤ 0 then none
            else if hostsToPrefixIPv4 h0 ≤ (p.bits : Int) then none
            else if rules.OversizeThreshold ≤
                (((2 ^ (32 - p.bits) - 2 ^ (32 - (hostsToPrefixIPv4 h0).toNat)) * 100 /
                  2 ^ (32 - p.bits) : Nat) : Int) then
              some ⟨"OVERSIZED", "segment " ++ s.Name ++ " site=" ++ s.Site ++ " " ++
                p.string ++ " exceeds hosts by " ++
                itoa (((2 ^ (32 - p.bits) - 2 ^ (32 - (hostsToPrefixIPv4 h0).toNat)) * 100 /
                  2 ^ (32 - p.bits) : Nat) : Int) ++ "% (need /" ++
                itoa (hostsToPrefixIPv4 h0) ++ ")", statusLevel.warning.Label⟩
            else none) := by
          unfold oversizedV4One
          rw [hh, hcd]
        rw [hbody]
        by_cases hw : (p.w == 32) = true
        · have hw' : p.w = 32 := by simpa using hw
          rw [if_neg (by simp [hw] : ¬(!(p.w == 32)) = true),
            if_neg (by omega : ¬hostsToPrefixIPv4 h0 ≤ 0)]
          by_cases hb : hostsToPrefixIPv4 h0 ≤ (p.bits : Int)
          · rw [if_pos hb]
            refine ⟨fun c hc => Option.noConfusion hc, ?_⟩
            simp only [Option.isSome_none, Bool.false_eq_true, false_iff]
            rintro ⟨h1, q, hh2, hc2, _, hlt, _⟩
            rw [hh] at hh2
            rw [hcd] at hc2
            rw [← Option.some_inj.mp hh2] at hlt
            have hq : q = p := by
              have := Option.some_inj.mp hc2
              cases this
              rfl
            rw [hq] at hlt
            omega
          · rw [if_neg hb]
            by_cases ht : rules.OversizeThreshold ≤
                (((2 ^ (32 - p.bits) - 2 ^ (32 - (hostsToPrefixIPv4 h0).toNat)) * 100 /
                  2 ^ (32 - p.bits) : Nat) : Int)
            · rw [if_pos ht]
              refine ⟨fun c hc => by rw [← Option.some_inj.mp hc], ?_⟩
              simp only [Option.isSome_some, true_iff]
              exact ⟨h0, p, hh, hcd, hw', by omega, ht⟩
            · rw [if_neg ht]
              refine ⟨fun c hc => Option.noConfusion hc, ?_⟩
              simp only [Option.isSome_none, Bool.false_eq_true, false_iff]
              rintro ⟨h1, q, hh2, hc2, _, _, hth⟩
              rw [hh] at hh2
              rw [hcd] at hc2
              rw [← Option.some_inj.mp hh2] at hth
              have hq : q = p := by
                have := Option.some_inj.mp hc2
                cases this
                rfl
              rw [hq] at hth
              exact ht hth
        · rw [if_pos (by simp [Bool.eq_false_iff.mpr hw] : (!(p.w == 32)) = true)]
          refine ⟨fun c hc => Option.noConfusion hc, ?_⟩
          simp only [Option.isSome_none, Bool.false_eq_true, false_iff]
          rintro ⟨h1, q, hh2, hc2, hqw, _⟩
          rw [hcd] at hc2
          have hq : q = p := by
            have := Option.some_inj.mp hc2
            cases this
            rfl
          rw [hq] at hqw
          exact hw (by simp [hqw])

theorem oversizedV4_filter_self (segs : List Segment) (rules : ProjectRules) :
    (oversizedV4 segs rules).filter (fun c => c.Kind == "OVERSIZED") =
      oversizedV4 segs rules := by
  rw [List.filter_eq_self]
  intro c hc
  unfold oversizedV4 at hc
  rw [List.mem_filterMap] at hc
  obtain ⟨s, _, hs⟩ := hc
  have := (oversizedV4One_cases rules s).1 c hs
  simp [this]

theorem analyzeEfficiency_filter_oversized (ordSitesV4 ordSitesV6 : List Int)
    (segs : List Segment) (pV4 pV6 rV4 rV6 : Int → List Prfx) (rules : ProjectRules) :
    (analyzeEfficiency ordSitesV4 ordSitesV6 segs pV4 pV6 rV4 rV6 rules).filter
      (fun c => c.Kind == "OVERSIZED") = oversizedV4 segs rules := by
  unfold analyzeEfficiency
  rw [List.filter_append, List.filter_append, List.filter_append]
  rw [oversizedV4_filter_self]
  have h4 : (((ordSitesV4.map fun siteID =>
      ((pV4 siteID).map (fragPoolV4 segs rV4 siteID)).flatten).flatten).filter
        (fun c => c.Kind == "OVERSIZED")) = [] := by
    rw [List.filter_eq_nil_iff]
    intro c hc
    rw [List.mem_flatten] at hc
    obtain ⟨l, hl, hcl⟩ := hc
    rw [List.mem_map] at hl
    obtain ⟨siteID, _, hsl⟩ := hl
    rw [← hsl] at hcl
    rw [List.mem_flatten] at hcl
    obtain ⟨m, hm, hcm⟩ := hcl
    rw [List.mem_map] at hm
    obtain ⟨pool, _, hpm⟩ := hm
    rw [← hpm] at hcm
    rcases fragPoolV4_kind segs rV4 siteID pool c hcm with h | h <;> simp [h]
  have h6 : (((ordSitesV6.map fun siteID =>
      ((pV6 siteID).map (fragPoolV6 segs rV6 siteID)).flatten).flatten).filter
        (fun c => c.Kind == "OVERSIZED")) = [] := by
    rw [List.filter_eq_nil_iff]
    intro c hc
    rw [List.mem_flatten] at hc
    obtain ⟨l, hl, hcl⟩ := hc
    rw [List.mem_map] at hl
    obtain ⟨siteID, _, hsl⟩ := hl
    rw [← hsl] at hcl
    rw [List.mem_flatten] at hcl
    obtain ⟨m, hm, hcm⟩ := hcl
    rw [List.mem_map] at hm
    obtain ⟨pool, _, hpm⟩ := hm
    rw [← hpm] at hcm
    rcases fragPoolV6_kind segs rV6 siteID pool c hcm with h | h <;> simp [h]
  have hv6 : ((oversizedV6 segs rules).filter (fun c => c.Kind == "OVERSIZED")) = [] := by
    rw [List.filter_eq_nil_iff]
    intro c hc
    have := oversizedV6_kind segs rules c hc
    simp [this]
  rw [h4, h6, hv6]
  simp

/-- C7 (amended): the OVERSIZED conflicts of analyzeEfficiency are exactly
its v4 oversize sweep's output, and that sweep emits a conflict for a
segment exactly when the segment has a host-count request and a parsed
IPv4 CIDR whose actual prefix length is strictly SMALLER than the
recomputed required length hostsToPrefixIPv4(hosts) — the assigned block
is bigger than needed, the opposite direction from the claim's "strictly
larger" — and the wasted fraction (actualSize - requiredSize)*100/actualSize
is at least the rules' oversize threshold; otherwise no OVERSIZED conflict
is emitted for it. -/
theorem C7_oversize_rule :
    (∀ (ordSitesV4 ordSitesV6 : List Int) (segs : List Segment)
        (pV4 pV6 rV4 rV6 : Int → List Prfx) (rules : ProjectRules),
      (analyzeEfficiency ordSitesV4 ordSitesV6 segs pV4 pV6 rV4 rV6 rules).filter
        (fun c => c.Kind == "OVERSIZED") = segs.filterMap (oversizedV4One rules)) ∧
    (∀ (rules : ProjectRules) (s : Segment),
      (oversizedV4One rules s).isSome = true ↔ oversizedCondV4 rules s) :=
  ⟨fun ordSitesV4 ordSitesV6 segs pV4 pV6 rV4 rV6 rules =>
    analyzeEfficiency_filter_oversized ordSitesV4 ordSitesV6 segs pV4 pV6 rV4 rV6 rules,
  fun rules s => (oversizedV4One_cases rules s).2⟩

/-- C4: both used-range builders return a list that is sorted by start,
pairwise disjoint with at least one address between consecutive ranges
(Chain' (a.end + 1 < b.start)), and clipped inside the containing pool P:
for buildUsedRangesBig every range lies in [P.addr, P.addr + size(P) - 1],
for the IPv4 buildUsedRanges in [P.maskedStart, P.maskedStart + size(P) - 1]
(the bounds the two functions themselves compute from P). -/
theorem C4_used_ranges_invariant :
    (∀ (pool : Prfx) (used : List Prfx),
      (buildUsedRangesBig pool used).Chain' (fun a b => a.endv + 1 < b.start) ∧
      ∀ r ∈ buildUsedRangesBig pool used,
        (pool.addr : Int) ≤ r.start ∧ r.start ≤ r.endv ∧
          r.endv ≤ (pool.addr : Int) + prefixSizeZ pool - 1) ∧
    (∀ (pool : Prfx) (segs : List Segment) (reserved : List Prfx),
      (buildUsedRanges pool segs reserved).Chain' (fun a b => a.endv + 1 < b.start) ∧
      ∀ r ∈ buildUsedRanges pool segs reserved,
        pool.maskedAddr ≤ r.start ∧ r.start ≤ r.endv ∧
          r.endv ≤ pool.maskedAddr + (2 ^ (32 - pool.bits) - 1)) :=
  ⟨buildUsedRangesBig_spec, buildUsedRanges_spec⟩

end Subnetio
